import Mathlib

/-!
Verification development for the GraphRAG core of the People.AI-Demo
repository.  The Python sources under `services/graphrag/services/` are
shallowly embedded here:

* `entity_extractor.py` works over dynamically typed records, so it is
  embedded over a `Value` type mirroring Python values, with exceptions
  modelled by `Except String`.
* `pinecone_service.hybrid_search`, `graphrag_processor.process_query`
  and the five insight synthesizers receive records of a fixed shape
  produced inside the code, so they are embedded over typed structures;
  a field of type `Option _` models a possibly missing dictionary key.
* External store calls (Pinecone query, Neo4j traversal, community
  detection) are modelled as oracle parameters returning `Except`.

Numbers are embedded as `Rat` (the Python sources only ever combine
decimal literals by `+`, `*`, `min` and division, so exact rational
arithmetic matches the intent of the float code).
-/

namespace GraphRAG

/-- Dynamic value type mirroring the Python values that flow through
`entity_extractor.py`: strings, numbers, booleans, `None`, lists and
string-keyed dictionaries (association lists with distinct keys). -/
inductive Value where
  | str (s : String)
  | num (q : Rat)
  | bool (b : Bool)
  | none
  | list (xs : List Value)
  | dict (xs : List (String × Value))
deriving BEq

namespace Value

/-- Python truthiness: empty string/list/dict, `0`, `False` and `None`
are falsy, everything else truthy. -/
def truthy : Value → Bool
  | .str s => !s.isEmpty
  | .num q => q != 0
  | .bool b => b
  | .none => false
  | .list xs => !xs.isEmpty
  | .dict xs => !xs.isEmpty

/-- Python equality (`==`) as the embedded code can reach it.  `True
== 1` and `False == 0` hold in Python, so booleans compare as numbers.
Every equality site in the embedded code compares a string literal or a
hashable scalar against another value (substring needles are strings;
set members must be hashable), so the operand pairs that recurse into
containers are unreachable; for completeness they fall back to the
derived structural equality (which agrees with Python except for the
numeric/boolean coercion nested inside containers). -/
def pyEq (a b : Value) : Bool :=
  match a, b with
  | .str x, .str y => x == y
  | .num x, .num y => x == y
  | .bool x, .num y => (if x then (1 : Rat) else 0) == y
  | .num x, .bool y => x == (if y then (1 : Rat) else 0)
  | .bool x, .bool y => x == y
  | .none, .none => true
  | .list as, .list bs => Value.list as == Value.list bs
  | .dict as, .dict bs => Value.dict as == Value.dict bs
  | _, _ => false

/-- Dictionary lookup on an association list (first match). -/
def dictGet? (xs : List (String × Value)) (k : String) : Option Value :=
  match xs.find? (fun p => p.1 == k) with
  | Option.some p => Option.some p.2
  | Option.none => Option.none

/-- Python `d.get(k, default)` on a value known to be a dictionary. -/
def dictGetD (xs : List (String × Value)) (k : String) (d : Value) : Value :=
  (dictGet? xs k).getD d

/-- Python `v.get(k, default)` on an arbitrary value: raises
`AttributeError` unless `v` is a dictionary. -/
def vGetD (v : Value) (k : String) (d : Value) : Except String Value :=
  match v with
  | .dict xs => .ok (dictGetD xs k d)
  | _ => .error "AttributeError: object has no attribute get"

/-- Python `v[k]` subscript on an arbitrary value with a string key:
`KeyError` when the key is absent, `TypeError` on non-dictionaries. -/
def vIndex (v : Value) (k : String) : Except String Value :=
  match v with
  | .dict xs =>
      match dictGet? xs k with
      | Option.some x => .ok x
      | Option.none => .error "KeyError"
  | _ => .error "TypeError: value is not subscriptable by string"

/-- Python `k in v` for a dictionary (key membership test). -/
def hasKey (v : Value) (k : String) : Bool :=
  match v with
  | .dict xs => xs.any fun p => p.1 == k
  | _ => false

/-- Python iteration `for x in v`: lists yield their elements, strings
yield their characters (as one-character strings), dictionaries yield
their keys; numbers, booleans and `None` raise `TypeError`. -/
def iterate : Value → Except String (List Value)
  | .list xs => .ok xs
  | .str s => .ok (s.toList.map fun c => .str (String.singleton c))
  | .dict xs => .ok (xs.map fun p => .str p.1)
  | _ => .error "TypeError: object is not iterable"

/-- Python `len(v)`: defined for strings, lists and dictionaries. -/
def pyLen : Value → Except String Nat
  | .str s => .ok s.length
  | .list xs => .ok xs.length
  | .dict xs => .ok xs.length
  | _ => .error "TypeError: object has no len"

end Value

/-- Leftmost occurrence test: `needle` occurs as a contiguous substring
of `hay` (over character lists). -/
def substrAux (needle hay : List Char) : Bool :=
  match hay with
  | [] => needle.isEmpty
  | _ :: t => needle.isPrefixOf hay || substrAux needle t

/-- Python `needle in hay` for strings: substring containment (the empty
string is contained in every string). -/
def strIn (needle hay : String) : Bool :=
  substrAux needle.toList hay.toList

/-- Python `needle in v` where `needle` is a string: substring test on
strings, membership (via Python `==`) on lists, key membership on
dictionaries; `TypeError` otherwise. -/
def vContainsStr (needle : String) (v : Value) : Except String Bool :=
  match v with
  | .str s => .ok (strIn needle s)
  | .list xs => .ok (xs.any fun x => Value.pyEq (.str needle) x)
  | .dict xs => .ok (xs.any fun p => p.1 == needle)
  | _ => .error "TypeError: argument is not iterable"

/-- ASCII lowercasing of a string, modelling Python `str.lower()` on the
ASCII inputs this system processes. -/
def pyLower (s : String) : String :=
  String.mk (s.toList.map Char.toLower)

/-- Python `str.isalpha()`: non-empty and every character alphabetic. -/
def pyIsAlpha (s : String) : Bool :=
  !s.isEmpty && s.toList.all Char.isAlpha

/-- Python `str.capitalize()`: first character uppercased, all remaining
characters lowercased. -/
def pyCapitalize (s : String) : String :=
  match s.toList with
  | [] => ""
  | c :: t => String.mk (c.toUpper :: t.map Char.toLower)

/-- Python `str.title()`: every maximal alphabetic run is written with
its first letter uppercase and the rest lowercase.  `prevAlpha` records
whether the previous character was alphabetic. -/
def pyTitleAux (prevAlpha : Bool) : List Char → List Char
  | [] => []
  | c :: t =>
      if c.isAlpha then
        (if prevAlpha then c.toLower else c.toUpper) :: pyTitleAux true t
      else
        c :: pyTitleAux false t

def pyTitle (s : String) : String :=
  String.mk (pyTitleAux false s.toList)

/-- Python whitespace test used by `str.split()` and `\s`. -/
def isPySpace (c : Char) : Bool :=
  c == ' ' || c == '\t' || c == '\n' || c == '\r' || c == '\x0b' || c == '\x0c'

/-- Maximal non-whitespace runs of a character list, in order; the fuel
is an upper bound on the number of characters left (structural so the
kernel can evaluate it). -/
def wsWordsFuel : Nat → List Char → List String
  | _, [] => []
  | 0, _ => []
  | fuel + 1, c :: rest =>
      if isPySpace c then wsWordsFuel fuel rest
      else
        String.mk (c :: rest.takeWhile fun d => !isPySpace d) ::
          wsWordsFuel fuel (rest.dropWhile fun d => !isPySpace d)

/-- Maximal non-whitespace runs of a character list, in order. -/
def wsWords (l : List Char) : List String :=
  wsWordsFuel l.length l

/-- Python `str.split()` with no argument: split on runs of whitespace,
discarding empty fields. -/
def pySplitWs (s : String) : List String :=
  wsWords s.toList

/-- Replacement of every leftmost, non-overlapping occurrence of the
non-empty pattern `p0 :: ps` by `rep`; the fuel bounds the characters
left to scan. -/
def replaceFuel (p0 : Char) (ps rep : List Char) : Nat → List Char → List Char
  | _, [] => []
  | 0, l => l
  | fuel + 1, c :: rest =>
      if (p0 :: ps).isPrefixOf (c :: rest) then
        rep ++ replaceFuel p0 ps rep fuel (rest.drop ps.length)
      else c :: replaceFuel p0 ps rep fuel rest

/-- Python `s.replace(pat, rep)` for a non-empty pattern (every call
site uses a fixed non-empty literal pattern). -/
def pyReplace (s pat rep : String) : String :=
  match pat.toList with
  | [] => s
  | p0 :: ps => String.mk (replaceFuel p0 ps rep.toList s.toList.length s.toList)

/-- Python slicing `s[:n]` on a string (by characters). -/
def pyTake (s : String) (n : Nat) : String :=
  String.mk (s.toList.take n)

/-- Splitting on each leftmost, non-overlapping occurrence of the
non-empty separator `s0 :: ss`, keeping empty fields; the fuel bounds
the characters left to scan. -/
def splitOnFuel (s0 : Char) (ss : List Char) : Nat → List Char → List (List Char)
  | _, [] => [[]]
  | 0, l => [l]
  | fuel + 1, c :: rest =>
      if (s0 :: ss).isPrefixOf (c :: rest) then
        [] :: splitOnFuel s0 ss fuel (rest.drop ss.length)
      else
        match splitOnFuel s0 ss fuel rest with
        | [] => [[c]]
        | w :: ws => (c :: w) :: ws

/-- Python `s.split(sep)` for a non-empty separator string. -/
def pySplitOnStr (s sep : String) : List String :=
  match sep.toList with
  | [] => [s]
  | c :: cs => (splitOnFuel c cs s.toList.length s.toList).map String.mk

/-- Split on any of the characters `'.'`, `'_'`, `'-'`, keeping empty
fields, modelling `re.split(r'[._-]', s)`. -/
def splitNameChars (s : String) : List String :=
  (s.toList.splitOnP fun c => c == '.' || c == '_' || c == '-').map String.mk

mutual

/-- Python `str(v)` as used in f-strings.  Integral numbers render
exactly; non-integral numbers render as `num/den`, and container
rendering omits the element quoting of Python `repr` (the exact Python
rendering of floats and containers differs, but no verified property
depends on those cases). -/
def pyStr : Value → String
  | .str s => s
  | .num q => if q.den == 1 then toString q.num
              else toString q.num ++ "/" ++ toString q.den
  | .bool b => if b then "True" else "False"
  | .none => "None"
  | .list xs => "[" ++ String.intercalate ", " (pyStrList xs) ++ "]"
  | .dict _ => "[dict]"

/-- Renderings of the elements of a list value. -/
def pyStrList : List Value → List String
  | [] => []
  | x :: xs => pyStr x :: pyStrList xs

end

end GraphRAG

namespace GraphRAG

open Value

/-! ### Topic classifier (`_extract_topics_from_text`, lines 341-380) -/

/-- Topic categories and keyword lists from `EntityExtractor.__init__`,
in insertion order. -/
def topic_categories : List (String × List String) := [
  ("pricing", ["price", "cost", "budget", "pricing", "discount", "fee",
               "payment", "invoice"]),
  ("technical", ["api", "integration", "development", "technical", "code",
                 "system", "platform"]),
  ("security", ["security", "compliance", "privacy", "audit", "encryption",
                "authentication"]),
  ("support", ["support", "help", "issue", "problem", "bug", "maintenance",
               "troubleshoot"]),
  ("business", ["business", "strategy", "growth", "revenue", "expansion",
                "partnership"]),
  ("product", ["product", "feature", "functionality", "capability",
               "solution", "offering"]),
  ("timeline", ["timeline", "schedule", "deadline", "delivery", "launch",
                "implementation"]),
  ("meeting", ["meeting", "call", "discussion", "presentation", "demo",
               "review"])]

/-- Keyword list of a category (`self.topic_categories.get(c, [])`). -/
def categoryKeywords (c : String) : List String :=
  match topic_categories.find? fun p => p.1 == c with
  | Option.some p => p.2
  | Option.none => []

/-- Word character of the `\b` assertion in Python regexes on ASCII
text: letters, digits and underscore. -/
def isWordChar (c : Char) : Bool :=
  c.isAlpha || c.isDigit || c == '_'

/-- ASCII `[A-Z]`. -/
def isAsciiUpper (c : Char) : Bool := 'A' ≤ c && c ≤ 'Z'

/-- ASCII `[a-z]`. -/
def isAsciiLower (c : Char) : Bool := 'a' ≤ c && c ≤ 'z'

/-- Word boundary holding right after a letter: the next character is
absent or not a word character. -/
def atTailBoundary : List Char → Bool
  | [] => true
  | c :: _ => !isWordChar c

/-- Parse `[A-Z][a-z]+` at the head of the input: one ASCII uppercase
letter followed by a maximal non-empty run of ASCII lowercase letters. -/
def takeCapWord : List Char → Option (List Char × List Char)
  | [] => Option.none
  | c :: rest =>
      if isAsciiUpper c then
        let lo := rest.takeWhile isAsciiLower
        if lo.isEmpty then Option.none
        else Option.some (c :: lo, rest.dropWhile isAsciiLower)
      else Option.none

/-- Greedy matching of `(?:\s+[A-Z][a-z]+)*\b` with backtracking over
the number of star iterations: first try to extend by one more
whitespace-run-plus-capitalized-word unit, and only if no extension
reaches a word boundary accept at the current position (which must be a
word boundary).  Shrinking a maximal `[a-z]+` or `\s+` run can never
produce a match for this pattern, so star-level backtracking is the only
backtracking the Python engine performs on it. -/
def extendStar (acc : List Char) (rest : List Char) : Nat → Option (List Char × List Char)
  | 0 => Option.none
  | fuel + 1 =>
      let ws := rest.takeWhile fun c => isPySpace c
      let attempt :=
        if ws.isEmpty then Option.none
        else
          match takeCapWord (rest.dropWhile fun c => isPySpace c) with
          | Option.some (w, r2) => extendStar (acc ++ ws ++ w) r2 fuel
          | Option.none => Option.none
      match attempt with
      | Option.some r => Option.some r
      | Option.none =>
          if atTailBoundary rest then Option.some (acc, rest) else Option.none

/-- Attempt to match `\b[A-Z][a-z]+ [A-Z][a-z]+(?:\s+[A-Z][a-z]+)*\b` at
the current position; `prevWord` says whether the preceding character is
a word character (which makes the leading `\b` fail). -/
def tryMatchPhrase (prevWord : Bool) (cs : List Char) : Option (List Char × List Char) :=
  if prevWord then Option.none
  else
    match takeCapWord cs with
    | Option.some (w1, r1) =>
        match r1 with
        | ' ' :: r2 =>
            match takeCapWord r2 with
            | Option.some (w2, r3) => extendStar (w1 ++ ' ' :: w2) r3 (r3.length + 1)
            | Option.none => Option.none
        | _ => Option.none
    | Option.none => Option.none

/-- Left-to-right, non-overlapping scan of `re.findall` for the
capitalized-phrase pattern.  The fuel is an upper bound on the number of
characters still to be consumed. -/
def scanPhrases (prevWord : Bool) (cs : List Char) : Nat → List String
  | 0 => []
  | fuel + 1 =>
      match cs with
      | [] => []
      | c :: rest =>
          match tryMatchPhrase prevWord (c :: rest) with
          | Option.some (m, rest') => String.mk m :: scanPhrases true rest' fuel
          | Option.none => scanPhrases (isWordChar c) rest fuel

/-- Model of
`re.findall(r'\b[A-Z][a-z]+ [A-Z][a-z]+(?:\s+[A-Z][a-z]+)*\b', text)`. -/
def findCapPhrases (text : String) : List String :=
  scanPhrases false text.toList (text.length + 1)

/-- Model of `_extract_topics_from_text` on a string argument (every
call site passes a string or is modelled by `extract_topics_from_textV`
below).  Category topics are produced in `topic_categories` order,
followed by up to five custom topics from the first five regex matches
that span at most three words. -/
def extract_topics_from_text (text : String) : List Value :=
  if text.isEmpty then []
  else
    let text_lower := pyLower text
    let catTopics := topic_categories.filterMap fun p =>
      let matchCount := (p.2.filter fun kw => strIn kw text_lower).length
      if matchCount > 0 then
        let importance : Rat := min ((matchCount : Rat) / (p.2.length : Rat)) 1.0
        Option.some (Value.dict [
          ("id", .str ("topic_" ++ p.1)),
          ("name", .str (pyTitle (pyReplace p.1 "_" " "))),
          ("category", .str p.1),
          ("importance", .num importance),
          ("keyword_matches", .num (matchCount : Rat)),
          ("confidence", .num (min (0.3 + importance * 0.7) 1.0)),
          ("source", .str "text_analysis")])
      else Option.none
    let custom_topics := findCapPhrases text
    let customs := (custom_topics.take 5).filterMap fun phrase =>
      if (pySplitWs phrase).length ≤ 3 then
        Option.some (Value.dict [
          ("id", .str ("custom_" ++ pyReplace (pyLower phrase) " " "_")),
          ("name", .str phrase),
          ("category", .str "custom"),
          ("importance", .num 0.5),
          ("confidence", .num 0.4),
          ("source", .str "phrase_extraction")])
      else Option.none
    catTopics ++ customs

/-- Model of `_extract_topics_from_text` on an arbitrary value: falsy
values return `[]` via the `if not text` guard, truthy non-strings raise
at `text.lower()`. -/
def extract_topics_from_textV (text : Value) : Except String (List Value) :=
  if !text.truthy then .ok []
  else
    match text with
    | .str s => .ok (extract_topics_from_text s)
    | _ => .error "AttributeError: object has no attribute lower"

/-! ### Sentiment heuristic (`_analyze_sentiment`, lines 382-400) -/

def positive_words : List String :=
  ["good", "great", "excellent", "positive", "happy", "satisfied",
   "success", "amazing"]

def negative_words : List String :=
  ["bad", "poor", "negative", "unhappy", "problem", "issue", "concern",
   "worried"]

/-- Model of `_analyze_sentiment` on a string argument. -/
def analyze_sentiment (text : String) : String :=
  let text_lower := pyLower text
  let positive_count := (positive_words.filter fun w => strIn w text_lower).length
  let negative_count := (negative_words.filter fun w => strIn w text_lower).length
  if positive_count > negative_count then "positive"
  else if negative_count > positive_count then "negative"
  else "neutral"

/-- Model of `_analyze_sentiment` on an arbitrary value. -/
def analyze_sentimentV (text : Value) : Except String Value :=
  if !text.truthy then .ok (.str "neutral")
  else
    match text with
    | .str s => .ok (.str (analyze_sentiment s))
    | _ => .error "AttributeError: object has no attribute lower"

/-! ### Person from an email address (`_extract_person_from_email`) -/

/-- Model of `_extract_person_from_email` (lines 316-339).  The indexing
`split('@')[0]` and `split('@')[1]` is written with a default that is
never taken because the guard ensures the address contains `'@'`. -/
def extract_person_from_email (email_address : Value) : Except String (Option Value) := do
  if !email_address.truthy then return Option.none
  let hasAt ← vContainsStr "@" email_address
  if !hasAt then return Option.none
  match email_address with
  | .str e =>
      let parts := pySplitOnStr e "@"
      let local_part := (parts.get? 0).getD ""
      let domain := (parts.get? 1).getD ""
      let name_parts := splitNameChars local_part
      let name := String.intercalate " "
        ((name_parts.filter fun p => pyIsAlpha p).map fun p => pyCapitalize p)
      let org_name := pyCapitalize (((pySplitOnStr domain ".").get? 0).getD "")
      return Option.some (.dict [
        ("id", .str (pyReplace (pyReplace e "@" "_at_") "." "_")),
        ("name", .str (if name.isEmpty then local_part else name)),
        ("email", .str e),
        ("organization", .str org_name),
        ("confidence", .num 0.6),
        ("source", .str "email_address")])
  | _ => .error "AttributeError: object has no attribute split"

end GraphRAG

namespace GraphRAG

open Value

/-! ### Entity buckets and merging -/

/-- Four-bucket dictionary returned by the per-source extractors. -/
structure Buckets4 where
  people : List Value := []
  organizations : List Value := []
  topics : List Value := []
  events : List Value := []

/-- Five-bucket dictionary built by `extract_from_account_data` (keys in
insertion order: people, organizations, topics, events,
relationships). -/
structure Buckets where
  people : List Value := []
  organizations : List Value := []
  topics : List Value := []
  events : List Value := []
  relationships : List Value := []

/-- Model of `_merge_entities` (lines 467-472): append each source
bucket onto the corresponding target bucket. -/
def merge_entities (target : Buckets) (source : Buckets4) : Buckets :=
  { target with
    people := target.people ++ source.people
    organizations := target.organizations ++ source.organizations
    topics := target.topics ++ source.topics
    events := target.events ++ source.events }

/-- Appending of two four-bucket results, used to fold the per-record
loops that extend a shared `entities` dictionary. -/
def merge4 (a b : Buckets4) : Buckets4 :=
  { people := a.people ++ b.people
    organizations := a.organizations ++ b.organizations
    topics := a.topics ++ b.topics
    events := a.events ++ b.events }

/-! ### Stakeholders (`_extract_people_from_stakeholders`, lines 117-136) -/

/-- Person record of one stakeholder dictionary; raises when the `name`
value is truthy-or-falsy but not a string (Python `.lower()`). -/
def personFromStakeholder (xs : List (String × Value)) : Except String Value :=
  match dictGetD xs "name" (.str "") with
  | .str name =>
      .ok (.dict [
        ("id", .str (pyReplace (pyLower name) " " "_")),
        ("name", .str name),
        ("email", dictGetD xs "email" (.str "")),
        ("role", dictGetD xs "persona_type" (.str "")),
        ("department", dictGetD xs "department" (.str "")),
        ("organization", dictGetD xs "organization" (.str "")),
        ("influence", dictGetD xs "influence" (.str "medium")),
        ("confidence", .num 0.9),
        ("source", .str "stakeholder_data")])
  | _ => .error "AttributeError: object has no attribute lower"

/-- Loop body of `_extract_people_from_stakeholders`: non-dictionary
items are skipped by the `isinstance` check. -/
def stakeholderLoop : List Value → Except String (List Value)
  | [] => .ok []
  | s :: rest =>
      match s with
      | .dict xs => do
          let p ← personFromStakeholder xs
          let r ← stakeholderLoop rest
          .ok (p :: r)
      | _ => stakeholderLoop rest

/-- Model of `_extract_people_from_stakeholders`. -/
def extract_people_from_stakeholders (stakeholders : Value) : Except String (List Value) := do
  let items ← stakeholders.iterate
  stakeholderLoop items

/-! ### Emails (`_extract_from_emails`, lines 138-191) -/

/-- Loop over `[sender] + recipients`: an address is processed when it
is truthy and contains `'@'`, and the derived person is appended when
`_extract_person_from_email` returned one. -/
def personsFromAddresses : List Value → Except String (List Value)
  | [] => .ok []
  | a :: rest => do
      if a.truthy then
        let hasAt ← vContainsStr "@" a
        if hasAt then do
          let p? ← extract_person_from_email a
          match p? with
          | Option.some p => do
              let r ← personsFromAddresses rest
              .ok (p :: r)
          | Option.none => personsFromAddresses rest
        else personsFromAddresses rest
      else personsFromAddresses rest

/-- Python `body[:n] + '...' if len(body) > n else body`: slicing then
concatenating raises unless `body` is a string; bodies of length at
most `n` pass through unchanged whatever their type. -/
def truncateSummary (body : Value) (n : Nat) : Except String Value := do
  let len ← body.pyLen
  if len > n then
    match body with
    | .str s => .ok (.str (pyTake s n ++ "..."))
    | _ => .error "TypeError: can only concatenate str"
  else .ok body

/-- Processing of one email message dictionary (lines 153-189). -/
def processMessage (xs : List (String × Value)) : Except String Buckets4 := do
  let sender := dictGetD xs "from" (.str "")
  let recipients0 := dictGetD xs "to" (.list [])
  let recipients ← match recipients0 with
    | .str s => .ok [Value.str s]
    | .list l => .ok l
    | _ => (.error "TypeError: can only concatenate list" : Except String (List Value))
  let addrs := sender :: recipients
  let people ← personsFromAddresses addrs
  let subject := dictGetD xs "subject" (.str "")
  let body := dictGetD xs "body" (.str "")
  let text_content := pyStr subject ++ " " ++ pyStr body
  let topics := extract_topics_from_text text_content
  let summary ← truncateSummary body 200
  let sentiment ← analyze_sentimentV body
  let event := Value.dict [
    ("id", .str ("email_" ++ pyStr (dictGetD xs "timestamp" (.str "")))),
    ("type", .str "email"),
    ("date", dictGetD xs "timestamp" (.str "")),
    ("subject", subject),
    ("summary", summary),
    ("participants", .list addrs),
    ("sentiment", sentiment),
    ("confidence", .num 0.8),
    ("source", .str "email_data")]
  .ok { people := people, topics := topics, events := [event] }

/-- Loop over the messages of one thread; non-dictionary messages are
skipped. -/
def messagesLoop : List Value → Except String Buckets4
  | [] => .ok {}
  | m :: rest =>
      match m with
      | .dict xs => do
          let b ← processMessage xs
          let r ← messagesLoop rest
          .ok (merge4 b r)
      | _ => messagesLoop rest

/-- Loop over email threads; non-dictionary threads are skipped. -/
def threadsLoop : List Value → Except String Buckets4
  | [] => .ok {}
  | t :: rest =>
      match t with
      | .dict xs => do
          let msgs ← (dictGetD xs "messages" (.list [])).iterate
          let b ← messagesLoop msgs
          let r ← threadsLoop rest
          .ok (merge4 b r)
      | _ => threadsLoop rest

/-- Model of `_extract_from_emails`. -/
def extract_from_emails (emails : Value) : Except String Buckets4 := do
  let threads ← emails.iterate
  threadsLoop threads

/-! ### Calls (`_extract_from_calls`, lines 193-238) -/

/-- Person record of one call participant: `participant.lower()` raises
on any non-string participant (there is no `isinstance` check here). -/
def personFromParticipant (p : Value) : Except String Value :=
  match p with
  | .str s =>
      .ok (.dict [
        ("id", .str (pyReplace (pyLower s) " " "_")),
        ("name", .str s),
        ("confidence", .num 0.7),
        ("source", .str "call_data")])
  | _ => .error "AttributeError: object has no attribute lower"

def participantsLoop : List Value → Except String (List Value)
  | [] => .ok []
  | p :: rest => do
      let x ← personFromParticipant p
      let r ← participantsLoop rest
      .ok (x :: r)

/-- The comprehension `[turn.get('text', '') for turn in transcript]`:
`turn.get` raises on non-dictionary turns. -/
def turnTexts : List Value → Except String (List Value)
  | [] => .ok []
  | t :: rest => do
      let v ← t.vGetD "text" (.str "")
      let r ← turnTexts rest
      .ok (v :: r)

/-- Python `sep.join(values)`: raises unless every element is a
string. -/
def joinStrs (sep : String) (vs : List Value) : Except String String := do
  let ss ← collect vs
  .ok (String.intercalate sep ss)
where
  collect : List Value → Except String (List String)
    | [] => .ok []
    | .str s :: rest => do
        let r ← collect rest
        .ok (s :: r)
    | _ :: _ => .error "TypeError: sequence item is not str"

/-- Processing of one call dictionary (lines 202-236). -/
def processCall (xs : List (String × Value)) : Except String Buckets4 := do
  let participants := dictGetD xs "participants" (.list [])
  let pitems ← participants.iterate
  let people ← participantsLoop pitems
  let transcript := dictGetD xs "transcript" (.list [])
  let titems ← transcript.iterate
  let texts ← turnTexts titems
  let transcript_text ← joinStrs " " texts
  let topics := extract_topics_from_text transcript_text
  let summary :=
    if transcript_text.length > 300 then pyTake transcript_text 300 ++ "..."
    else transcript_text
  let event := Value.dict [
    ("id", dictGetD xs "call_id"
       (.str ("call_" ++ pyStr (dictGetD xs "date" (.str ""))))),
    ("type", .str "call"),
    ("date", dictGetD xs "date" (.str "")),
    ("summary", .str summary),
    ("participants", participants),
    ("duration", dictGetD xs "duration" (.str "")),
    ("sentiment", .str (analyze_sentiment transcript_text)),
    ("confidence", .num 0.8),
    ("source", .str "call_data")]
  .ok { people := people, topics := topics, events := [event] }

/-- Loop over call records; non-dictionary calls are skipped. -/
def callsLoop : List Value → Except String Buckets4
  | [] => .ok {}
  | c :: rest =>
      match c with
      | .dict xs => do
          let b ← processCall xs
          let r ← callsLoop rest
          .ok (merge4 b r)
      | _ => callsLoop rest

/-- Model of `_extract_from_calls`. -/
def extract_from_calls (calls : Value) : Except String Buckets4 := do
  let items ← calls.iterate
  callsLoop items

end GraphRAG

namespace GraphRAG

open Value

/-! ### Interactions (`_extract_from_interactions`, lines 240-279) -/

/-- Loop over interaction participants: only string participants that
contain `'@'` yield a person. -/
def interactionParticipantsLoop : List Value → Except String (List Value)
  | [] => .ok []
  | p :: rest =>
      match p with
      | .str s =>
          if strIn "@" s then do
            let p? ← extract_person_from_email (.str s)
            match p? with
            | Option.some person => do
                let r ← interactionParticipantsLoop rest
                .ok (person :: r)
            | Option.none => interactionParticipantsLoop rest
          else interactionParticipantsLoop rest
      | _ => interactionParticipantsLoop rest

/-- Processing of one interaction dictionary (lines 249-277). -/
def processInteraction (xs : List (String × Value)) : Except String Buckets4 := do
  let participants := dictGetD xs "participants" (.list [])
  let pitems ← participants.iterate
  let people ← interactionParticipantsLoop pitems
  let summary := dictGetD xs "summary" (.str "")
  let topics ← extract_topics_from_textV summary
  let event := Value.dict [
    ("id", .str ("interaction_" ++ pyStr (dictGetD xs "date" (.str ""))
                 ++ "_" ++ pyStr (dictGetD xs "type" (.str "")))),
    ("type", dictGetD xs "type" (.str "interaction")),
    ("date", dictGetD xs "date" (.str "")),
    ("summary", summary),
    ("participants", participants),
    ("sentiment", dictGetD xs "sentiment" (.str "neutral")),
    ("confidence", .num 0.7),
    ("source", .str "interaction_data")]
  .ok { people := people, topics := topics, events := [event] }

/-- Loop over interactions; non-dictionary items are skipped. -/
def interactionsLoop : List Value → Except String Buckets4
  | [] => .ok {}
  | i :: rest =>
      match i with
      | .dict xs => do
          let b ← processInteraction xs
          let r ← interactionsLoop rest
          .ok (merge4 b r)
      | _ => interactionsLoop rest

/-- Model of `_extract_from_interactions`. -/
def extract_from_interactions (interactions : Value) : Except String Buckets4 := do
  let items ← interactions.iterate
  interactionsLoop items

/-! ### Documents (`_extract_from_documents`, lines 281-314) -/

/-- Processing of one document dictionary (lines 290-312). -/
def processDocument (xs : List (String × Value)) : Except String Buckets4 := do
  let content := dictGetD xs "content" (.str "")
  let title := dictGetD xs "title" (.str "")
  let text_content := pyStr title ++ " " ++ pyStr content
  let topics := extract_topics_from_text text_content
  let summary ← truncateSummary content 200
  let event := Value.dict [
    ("id", .str ("document_" ++ pyStr (dictGetD xs "id" (.str "")))),
    ("type", .str "document"),
    ("date", dictGetD xs "created_date" (.str "")),
    ("subject", title),
    ("summary", summary),
    ("confidence", .num 0.6),
    ("source", .str "document_data")]
  .ok { topics := topics, events := [event] }

/-- Loop over documents; non-dictionary items are skipped. -/
def documentsLoop : List Value → Except String Buckets4
  | [] => .ok {}
  | d :: rest =>
      match d with
      | .dict xs => do
          let b ← processDocument xs
          let r ← documentsLoop rest
          .ok (merge4 b r)
      | _ => documentsLoop rest

/-- Model of `_extract_from_documents`. -/
def extract_from_documents (documents : Value) : Except String Buckets4 := do
  let items ← documents.iterate
  documentsLoop items

/-! ### Relationship inference (`_extract_relationships`, lines 402-446) -/

/-- Person-to-organization `WORKS_FOR` edges (lines 407-416). -/
def worksForRels : List Value → Except String (List Value)
  | [] => .ok []
  | p :: rest => do
      let org ← p.vGetD "organization" Value.none
      if org.truthy then
        match org with
        | .str o => do
            let pid ← p.vIndex "id"
            let r ← worksForRels rest
            .ok (Value.dict [
              ("source", pid),
              ("target", .str (pyReplace (pyLower o) " " "_")),
              ("type", .str "WORKS_FOR"),
              ("strength", .num 0.8),
              ("context", .str "employment")] :: r)
        | _ => .error "AttributeError: object has no attribute lower"
      else worksForRels rest

/-- Participant-to-event `PARTICIPATED_IN` edges of one event (lines
420-430): only string participants produce an edge. -/
def participationRelsForEvent (e : Value) : List Value → Except String (List Value)
  | [] => .ok []
  | p :: rest =>
      match p with
      | .str s => do
          let eid ← e.vIndex "id"
          let ety ← e.vIndex "type"
          let r ← participationRelsForEvent e rest
          .ok (Value.dict [
            ("source", .str (pyReplace (pyReplace s "@" "_at_") "." "_")),
            ("target", eid),
            ("type", .str "PARTICIPATED_IN"),
            ("strength", .num 0.9),
            ("context", ety)] :: r)
      | _ => participationRelsForEvent e rest

/-- Outer loop of the participation family over all events. -/
def participationRels : List Value → Except String (List Value)
  | [] => .ok []
  | e :: rest => do
      let participants ← e.vGetD "participants" (.list [])
      let ps ← participants.iterate
      let here ← participationRelsForEvent e ps
      let there ← participationRels rest
      .ok (here ++ there)

/-- Event-to-topic `DISCUSSED` edges of one event against every topic
(lines 433-444); a topic whose category value is unhashable raises at
the `topic_categories.get` lookup. -/
def discussedRelsForEvent (e : Value) (event_text : String) :
    List Value → Except String (List Value)
  | [] => .ok []
  | t :: rest => do
      let catV ← t.vGetD "category" (.str "")
      let kws ← match catV with
        | .str c => (.ok (categoryKeywords c) : Except String (List String))
        | .list _ => .error "TypeError: unhashable type"
        | .dict _ => .error "TypeError: unhashable type"
        | _ => .ok []
      if kws.any fun kw => strIn kw (pyLower event_text) then do
        let eid ← e.vIndex "id"
        let tid ← t.vIndex "id"
        let imp ← t.vGetD "importance" (.num 0.5)
        let r ← discussedRelsForEvent e event_text rest
        .ok (Value.dict [
          ("source", eid),
          ("target", tid),
          ("type", .str "DISCUSSED"),
          ("strength", imp),
          ("context", .str "topic_discussion")] :: r)
      else discussedRelsForEvent e event_text rest

/-- Outer loop of the discussion family over all events. -/
def discussedRels (topics : List Value) : List Value → Except String (List Value)
  | [] => .ok []
  | e :: rest => do
      let subj ← e.vGetD "subject" (.str "")
      let summ ← e.vGetD "summary" (.str "")
      let event_text := pyStr subj ++ " " ++ pyStr summ
      let here ← discussedRelsForEvent e event_text topics
      let there ← discussedRels topics rest
      .ok (here ++ there)

/-- Model of `_extract_relationships`: the three relationship families
in source order, over the entity buckets as they stand when it is
called. -/
def extract_relationships (entities : Buckets) : Except String (List Value) := do
  let wf ← worksForRels entities.people
  let pr ← participationRels entities.events
  let dr ← discussedRels entities.topics entities.events
  .ok (wf ++ pr ++ dr)

/-! ### Deduplication (`_deduplicate_entities`, lines 448-465) -/

/-- Python hashability of a prospective set element: lists and
dictionaries raise `TypeError`. -/
def hashable : Value → Except String Unit
  | .list _ => .error "TypeError: unhashable type"
  | .dict _ => .error "TypeError: unhashable type"
  | _ => .ok ()

/-- One bucket pass of `_deduplicate_entities`: keep an entity iff its
`id` (defaulting to `''`) was not seen before.  Written with explicit
matches on the fallible steps (`entity.get` and the hashing implied by
set membership). -/
def dedupeLoop (seen : List Value) : List Value → Except String (List Value)
  | [] => .ok []
  | e :: rest =>
      match e.vGetD "id" (.str "") with
      | .error msg => .error msg
      | .ok id =>
          match hashable id with
          | .error msg => .error msg
          | .ok _ =>
              if seen.any fun s => pyEq id s then dedupeLoop seen rest
              else
                match dedupeLoop (id :: seen) rest with
                | .error msg => .error msg
                | .ok r => .ok (e :: r)

/-- Model of `_deduplicate_entities`: each entity bucket is
deduplicated independently; the `relationships` bucket is skipped. -/
def deduplicate_entities (entities : Buckets) : Except String Buckets := do
  let p ← dedupeLoop [] entities.people
  let o ← dedupeLoop [] entities.organizations
  let t ← dedupeLoop [] entities.topics
  let e ← dedupeLoop [] entities.events
  .ok { people := p, organizations := o, topics := t, events := e,
        relationships := entities.relationships }

/-! ### Top level (`extract_from_account_data`, lines 50-115) -/

/-- Extraction and merging of the five optional source collections in
source order (lines 63-86), starting from the empty bucket
dictionary. -/
def extractSources (account_data : Value) : Except String Buckets :=
  (if account_data.hasKey "stakeholders" then
      account_data.vIndex "stakeholders" >>= fun sv =>
      extract_people_from_stakeholders sv >>= fun people =>
      .ok { ({} : Buckets) with people := ({} : Buckets).people ++ people }
    else .ok ({} : Buckets)) >>= fun b1 =>
  (if account_data.hasKey "emails" then
      account_data.vIndex "emails" >>= fun ev =>
      extract_from_emails ev >>= fun e4 =>
      .ok (merge_entities b1 e4)
    else .ok b1) >>= fun b2 =>
  (if account_data.hasKey "calls" then
      account_data.vIndex "calls" >>= fun cv =>
      extract_from_calls cv >>= fun c4 =>
      .ok (merge_entities b2 c4)
    else .ok b2) >>= fun b3 =>
  (if account_data.hasKey "interactions" then
      account_data.vIndex "interactions" >>= fun iv =>
      extract_from_interactions iv >>= fun i4 =>
      .ok (merge_entities b3 i4)
    else .ok b3) >>= fun b4 =>
  (if account_data.hasKey "documents" then
      account_data.vIndex "documents" >>= fun dv =>
      extract_from_documents dv >>= fun d4 =>
      .ok (merge_entities b4 d4)
    else .ok b4) >>= fun b5 =>
  .ok b5

/-- Model of `extract_from_account_data`.  The `accountName` value is
read first (line 61); each optional source collection is extracted and
merged in source order (`extractSources`); the primary-account
organization is appended; relationship inference (when requested) runs
on the buckets as they stand; deduplication runs last.  The surrounding
`try/except` logs and re-raises, so it does not change the result. -/
def extract_from_account_data (account_data : Value)
    (withRelationships : Bool := true) : Except String Buckets := do
  let accountNameV ← account_data.vGetD "accountName" (.str "unknown")
  let b5 ← extractSources account_data
  let account_name ← match accountNameV with
    | .str s => (.ok s : Except String String)
    | _ => .error "AttributeError: object has no attribute lower"
  let orgEntity := Value.dict [
    ("id", .str (pyReplace (pyLower account_name) " " "_")),
    ("name", .str account_name),
    ("type", .str "primary_account"),
    ("industry", .str "technology"),
    ("confidence", .num 1.0)]
  let b6 := { b5 with organizations := b5.organizations ++ [orgEntity] }
  let b7 ← if withRelationships then do
      let rels ← extract_relationships b6
      (.ok { b6 with relationships := rels } : Except String Buckets)
    else .ok b6
  deduplicate_entities b7

end GraphRAG

namespace GraphRAG

open Value

/-! ### Pinecone service (`pinecone_service.py`)

Semantic search hits always carry the keys `id`, `score`, `metadata`
and `text` (they are built that way in `semantic_search` and
`_mock_search_results`), so they are embedded as a typed structure.
The Pinecone index query is an oracle mapping the requested `top_k` to
either a hit list or an exception. -/

structure SemHit where
  id : String
  score : Rat
  metadata : Value := .dict []
  text : String

/-- Model of `_mock_search_results` (lines 320-333). -/
def mock_search_results (query : String) (top_k : Nat) : List SemHit :=
  (List.range (min top_k 5)).map fun i =>
    { id := "mock_doc_" ++ toString i
      score := 0.8 - (i : Rat) * 0.1
      metadata := .dict [("type", .str "mock"), ("query", .str query)]
      text := "Mock document " ++ toString i ++ " related to: " ++ query }

/-- Model of `semantic_search` (lines 212-245): mock results when the
service is not initialized, otherwise the oracle's hits, degrading to
mock results when the oracle raises.  It never raises itself. -/
def semantic_search (ready : Bool) (semResp : Nat → Except String (List SemHit))
    (query : String) (top_k : Nat) : List SemHit :=
  if !ready then mock_search_results query top_k
  else
    match semResp top_k with
    | .ok results => results
    | .error _ => mock_search_results query top_k

/-- Semantic hit augmented by `hybrid_search`'s re-ranking keys; an
`Option.none` field models a dictionary without that key (the
semantic-only fallback paths leave both keys absent). -/
structure HybridHit where
  hit : SemHit
  hybrid_score : Option Rat := Option.none
  context_relevance : Option Nat := Option.none

/-- The set `context_keywords` of lines 254-256: union of the
whitespace-split lowercased graph-context strings. -/
def contextKeywords (graph_context : List String) : Finset String :=
  (graph_context.flatMap fun c => pySplitWs (pyLower c)).toFinset

/-- The set of whitespace-split lowercased words of a hit text. -/
def textKeywords (t : String) : Finset String :=
  (pySplitWs (pyLower t)).toFinset

/-- `context_overlap = len(context_keywords & text_keywords)`. -/
def contextOverlap (ck : Finset String) (t : String) : Nat :=
  (ck ∩ textKeywords t).card

/-- Re-ranking of one semantic hit (lines 259-265): the stored
`context_relevance` is the raw overlap count, while `hybrid_score`
blends the score with the overlap divided by `max(len(ck), 1)`. -/
def scoreHit (ck : Finset String) (h : SemHit) : HybridHit :=
  let context_overlap := contextOverlap ck h.text
  { hit := h
    hybrid_score := Option.some
      (h.score * 0.7 + ((context_overlap : Rat) / ((max ck.card 1 : Nat) : Rat)) * 0.3)
    context_relevance := Option.some context_overlap }

/-- Stable insertion of an element into a list sorted descending by
`key`: the element goes before the first position whose key is not
larger, so equal keys keep input order. -/
def insertDescBy {α : Type} (key : α → Rat) (x : α) : List α → List α
  | [] => [x]
  | y :: ys => if key y > key x then y :: insertDescBy key x ys else x :: y :: ys

/-- Stable descending sort by `key`, modelling Python
`sorted(l, key=key, reverse=True)` (which is stable). -/
def sortDescBy {α : Type} (key : α → Rat) : List α → List α
  | [] => []
  | x :: xs => insertDescBy key x (sortDescBy key xs)

/-- Model of `hybrid_search` (lines 247-275).  Its body cannot raise in
this embedding (the inner `semantic_search` already degrades), so the
`except` fallback to semantic-only results is unreachable here. -/
def hybrid_search (ready : Bool) (semResp : Nat → Except String (List SemHit))
    (query : String) (graph_context : List String) (top_k : Nat := 10) :
    List HybridHit :=
  let semantic_results := semantic_search ready semResp query (top_k * 2)
  let ck := contextKeywords graph_context
  let scored := semantic_results.map fun r => scoreHit ck r
  (sortDescBy (fun r => r.hybrid_score.getD 0) scored).take top_k

/-! ### Graph-side records -/

/-- Graph-context entity as consumed by the synthesizers.  A field of
`Option.none` models a dictionary without that key: `entity['k']` then
raises `KeyError` while `entity.get('k', d)` yields the default.
Entities returned by `find_related_entities` always carry all keys, but
the synthesizers are specified as independently testable on fabricated
inputs, where keys may be absent. -/
structure GraphEntity where
  id : Option String := Option.none
  name : Option String := Option.none
  labels : List String := []
  properties : Value := .dict []
  distance : Option Int := Option.none

/-- Member record of a detected community. -/
structure CommunityMember where
  id : Option String := Option.none
  name : Option String := Option.none
  labels : List String := []

/-- Community record (`{'id': communityId, 'members': members}`). -/
structure Community where
  id : Int
  members : List CommunityMember

/-! ### Insight records -/

/-- Analyzer-specific evidence payloads. -/
inductive Evidence where
  | entityMention (entities : List String) (correlation_strength : Nat)
  | communityComposition (people organizations total_members : Nat)
  | temporalDistribution (event_count : Nat) (time_span : String)
  | hopAnalysis (max_hops : Int) (entities_per_hop : List (String × Nat))
  | alignmentAnalysis (aligned_entities : Nat) (alignment_strength : Rat)

/-- Relationship asserted by an insight. -/
structure InsightRel where
  source : String
  target : String
  type' : String

/-- Insight record.  Every insight in the code is built with a string
`type`, a numeric `confidence`, a string `summary`, evidence and
relationship lists, and optionally a `category` added by
`generate_account_insights`. -/
structure Insight where
  type' : String
  confidence : Rat
  evidence : List Evidence := []
  relationships : List InsightRel := []
  summary : String
  category : Option String := Option.none

end GraphRAG

namespace GraphRAG

open Value

/-! ### Insight synthesizers (`graphrag_processor.py`) -/

/-- Insertion into a Python string set, modelled as an
insertion-ordered duplicate-free list (Python set iteration order is
unspecified; only lengths and a summary string depend on it). -/
def addUnique (acc : List String) (s : String) : List String :=
  if s ∈ acc then acc else acc ++ [s]

/-- Inner loop of `_analyze_cross_source_correlation` (lines 246-250):
for one hit text, add every graph entity whose defaulted lowercased
name is a substring; `entity['name']` raises `KeyError` when the name
key is absent (after the empty-string default just matched). -/
def collectCorrelated (text : String) : List String → List GraphEntity →
    Except String (List String)
  | acc, [] => .ok acc
  | acc, e :: rest =>
      if strIn (pyLower (e.name.getD "")) text then
        match e.name with
        | Option.some n => collectCorrelated text (addUnique acc n) rest
        | Option.none => .error "KeyError"
      else collectCorrelated text acc rest

/-- The `semantic_entities` set of lines 245-250. -/
def crossSourceEntities (semantic_results : List SemHit)
    (graph_context : List GraphEntity) : Except String (List String) :=
  loop [] semantic_results
where
  loop (acc : List String) : List SemHit → Except String (List String)
    | [] => .ok acc
    | r :: rest => do
        let acc' ← collectCorrelated (pyLower r.text) acc graph_context
        loop acc' rest

/-- Model of `_analyze_cross_source_correlation` (lines 240-271): the
surrounding `try/except` converts any exception into `None`. -/
def analyze_cross_source_correlation (semantic_results : List SemHit)
    (graph_context : List GraphEntity) : Option Insight :=
  match crossSourceEntities semantic_results graph_context with
  | .error _ => Option.none
  | .ok semantic_entities =>
      if semantic_entities.length ≥ 2 then
        Option.some {
          type' := "cross_source_correlation"
          confidence := min ((semantic_entities.length : Rat) * 0.2) 1.0
          evidence := [.entityMention semantic_entities semantic_entities.length]
          relationships := []
          summary := "Found " ++ toString semantic_entities.length ++
            " entities correlated across semantic search and graph data: " ++
            String.intercalate ", " (semantic_entities.take 3) }
      else Option.none

/-- `MEMBER_OF` relationship list of one community (lines 297-303);
`member['id']` raises `KeyError` when absent. -/
def communityRels (cid : Int) : List CommunityMember → Except String (List InsightRel)
  | [] => .ok []
  | m :: rest =>
      match m.id with
      | Option.some mid => do
          let r ← communityRels cid rest
          .ok ({ source := mid, target := "community_" ++ toString cid,
                 type' := "MEMBER_OF" } :: r)
      | Option.none => .error "KeyError"

/-- Insight of one community when it has at least `min_community_size = 3`
members (lines 280-305). -/
def communityInsight (c : Community) : Except String (Option Insight) :=
  if c.members.length ≥ 3 then do
    let person_count := (c.members.filter fun m => "Person" ∈ m.labels).length
    let org_count := (c.members.filter fun m => "Organization" ∈ m.labels).length
    let rels ← communityRels c.id (c.members.take 5)
    .ok (Option.some {
      type' := "community_influence"
      confidence := 0.8
      evidence := [.communityComposition person_count org_count c.members.length]
      relationships := rels
      summary := "Community " ++ toString c.id ++ " contains " ++
        toString person_count ++ " people and " ++ toString org_count ++
        " organizations, indicating a " ++
        (if c.members.length > 5 then "strong" else "moderate") ++
        " influence network" })
  else .ok Option.none

/-- Model of `_analyze_community_patterns` (lines 273-311): the first 3
communities are analyzed; on any exception the `except` returns `[]`,
discarding insights accumulated so far. -/
def analyze_community_patterns (communities : List Community) : List Insight :=
  match loop (communities.take 3) with
  | .ok l => l
  | .error _ => []
where
  loop : List Community → Except String (List Insight)
    | [] => .ok []
    | c :: rest => do
        let i? ← communityInsight c
        let r ← loop rest
        match i? with
        | Option.some i => .ok (i :: r)
        | Option.none => .ok r

/-- The `timestamps` collection of `_analyze_temporal_patterns` (lines
318-324): per hit, the metadata's `timestamp` value, else its `date`
value, else nothing; the `in` test raises on non-container metadata. -/
def timestampsOf : List SemHit → Except String (List Value)
  | [] => .ok []
  | r :: rest => do
      let md := r.metadata
      if (← vContainsStr "timestamp" md) then do
        let v ← md.vIndex "timestamp"
        let tl ← timestampsOf rest
        .ok (v :: tl)
      else if (← vContainsStr "date" md) then do
        let v ← md.vIndex "date"
        let tl ← timestampsOf rest
        .ok (v :: tl)
      else timestampsOf rest

/-- Model of `_analyze_temporal_patterns` (lines 313-345). -/
def analyze_temporal_patterns (semantic_results : List SemHit) : Option Insight :=
  match timestampsOf semantic_results with
  | .error _ => Option.none
  | .ok timestamps =>
      if timestamps.length ≥ 3 then
        Option.some {
          type' := "temporal_evolution"
          confidence := 0.7
          evidence := [.temporalDistribution timestamps.length "recent_activity"]
          relationships := []
          summary := "Identified " ++ toString timestamps.length ++
            " timestamped interactions showing active engagement pattern" }
      else Option.none

/-- Count bump in the insertion-ordered distance grouping. -/
def bumpDistance : List (Int × Nat) → Int → List (Int × Nat)
  | [], d => [(d, 1)]
  | (k, n) :: rest, d =>
      if k == d then (k, n + 1) :: rest else (k, n) :: bumpDistance rest d

/-- The `entities_by_distance` grouping of lines 353-358, keyed by
`entity.get('distance', 1)` with per-key counts in first-seen order. -/
def entitiesByDistance (graph_context : List GraphEntity) : List (Int × Nat) :=
  graph_context.foldl (fun acc e => bumpDistance acc (e.distance.getD 1)) []

/-- `CONNECTED_AT_HOP` relationships for `graph_context[:5]` (lines
374-380); `entity['id']` raises `KeyError` when absent. -/
def hopRels : List GraphEntity → Except String (List InsightRel)
  | [] => .ok []
  | e :: rest =>
      match e.id with
      | Option.some eid => do
          let r ← hopRels rest
          .ok ({ source := "query_context", target := eid,
                 type' := "CONNECTED_AT_HOP_" ++ toString (e.distance.getD 1) } :: r)
      | Option.none => .error "KeyError"

/-- Model of `_perform_multi_hop_reasoning` (lines 347-388): one insight
when more than one distinct distance is present; any exception makes the
`except` return `[]`. -/
def perform_multi_hop_reasoning (graph_context : List GraphEntity) : List Insight :=
  let groups := entitiesByDistance graph_context
  if groups.length > 1 then
    match hopRels (graph_context.take 5) with
    | .error _ => []
    | .ok rels =>
        let max_distance := ((groups.map fun p => p.1).max?).getD 0
        [{ type' := "multi_hop_reasoning"
           confidence := 0.6
           evidence := [.hopAnalysis max_distance
             (groups.map fun p => (toString p.1, p.2))]
           relationships := rels
           summary := "Multi-hop reasoning found " ++
             toString graph_context.length ++ " connected entities within " ++
             toString max_distance ++ " degrees of separation" }]
  else []

/-- Aligned-hit count of `_analyze_semantic_structural_alignment` (lines
395-404): among the first 5 hybrid hits, those whose effective score
exceeds 0.7 and whose text contains the defaulted lowercased name of
some graph entity at defaulted distance at most 2. -/
def alignedCount (hybrid_results : List HybridHit)
    (graph_context : List GraphEntity) : Nat :=
  ((hybrid_results.take 5).filter fun r =>
    (r.hybrid_score.getD r.hit.score) > 0.7 &&
    graph_context.any fun e =>
      strIn (pyLower (e.name.getD "")) (pyLower r.hit.text) &&
      e.distance.getD 999 ≤ 2).length

/-- Model of `_analyze_semantic_structural_alignment` (lines 390-426);
its body cannot raise (every access is defaulted), so the `except`
branch is unreachable. -/
def analyze_semantic_structural_alignment (hybrid_results : List HybridHit)
    (graph_context : List GraphEntity) : Option Insight :=
  let aligned_entities := alignedCount hybrid_results graph_context
  if aligned_entities ≥ 2 then
    let alignment_strength : Rat :=
      (aligned_entities : Rat) / ((min hybrid_results.length 5 : Nat) : Rat)
    Option.some {
      type' := "semantic_structural_alignment"
      confidence := alignment_strength
      evidence := [.alignmentAnalysis aligned_entities alignment_strength]
      relationships := []
      summary := "Strong alignment between semantic similarity and graph relationships found in "
        ++ toString aligned_entities ++ " cases" }
  else Option.none

/-- Model of `_generate_graphrag_insights` (lines 203-238). -/
def generate_graphrag_insights (semantic_results : List SemHit)
    (graph_context : List GraphEntity) (hybrid_results : List HybridHit)
    (communities : List Community) : List Insight :=
  (if !semantic_results.isEmpty && !graph_context.isEmpty then
    (analyze_cross_source_correlation semantic_results graph_context).toList
   else []) ++
  (if !communities.isEmpty then analyze_community_patterns communities else []) ++
  (analyze_temporal_patterns semantic_results).toList ++
  perform_multi_hop_reasoning graph_context ++
  (analyze_semantic_structural_alignment hybrid_results graph_context).toList

end GraphRAG

namespace GraphRAG

open Value

/-! ### Query processing (`process_query`, lines 48-107) -/

/-- The per-field loop of `_extract_entity_context` over
`['thread_id', 'call_id', 'document_id']` (lines 197-199). -/
def idFieldsLoop (md : Value) : List String → List String →
    Except String (List String)
  | acc, [] => .ok acc
  | acc, f :: rest => do
      if (← vContainsStr f md) then do
        let v ← md.vIndex f
        idFieldsLoop md (addUnique acc (pyStr v)) rest
      else idFieldsLoop md acc rest

/-- Model of `_extract_entity_context` (lines 180-201): collect
normalized participant ids and the raw id fields from every hit's
metadata into a set (insertion-ordered here).  This helper has no
`try/except`, so its exceptions propagate. -/
def extract_entity_context (semantic_results : List SemHit) :
    Except String (List String) :=
  loop [] semantic_results
where
  loop (acc : List String) : List SemHit → Except String (List String)
    | [] => .ok acc
    | r :: rest => do
        let md := r.metadata
        let acc1 ←
          if (← vContainsStr "participants" md) then do
            let participants ← md.vIndex "participants"
            match participants with
            | .list ps =>
                (.ok (ps.foldl (fun a p =>
                  match p with
                  | .str s => addUnique a (pyReplace (pyReplace s "@" "_at_") "." "_")
                  | _ => a) acc) : Except String (List String))
            | _ => .ok acc
          else .ok acc
        let acc2 ← idFieldsLoop md acc1 ["thread_id", "call_id", "document_id"]
        loop acc2 rest

/-- Result record of `process_query` (lines 96-103). -/
structure QueryResult where
  insights : List Insight
  entityCount : Nat
  relationshipCount : Nat
  communityCount : Nat
  semanticResults : List SemHit
  graphContext : List GraphEntity

/-- The graph-traversal loop of lines 64-71: one `find_related_entities`
oracle call per collected entity id, extending `graph_context`; an
oracle exception propagates. -/
def graphContextLoop (graphResp : String → Except String (List GraphEntity)) :
    List String → Except String (List GraphEntity)
  | [] => .ok []
  | eid :: rest => do
      let related ← graphResp eid
      let r ← graphContextLoop graphResp rest
      .ok (related ++ r)

/-- The `graph_text_context` comprehension of line 75:
`f"{e['name']} ({', '.join(e['labels'])})"`; `e['name']` raises
`KeyError` when the name key is absent. -/
def graphTextContext : List GraphEntity → Except String (List String)
  | [] => .ok []
  | e :: rest =>
      match e.name with
      | Option.some n => do
          let r ← graphTextContext rest
          .ok ((n ++ " (" ++ String.intercalate ", " e.labels ++ ")") :: r)
      | Option.none => .error "KeyError"

/-- Model of `process_query`.  External collaborators appear as oracles:
`semResp` is the Pinecone index query keyed by the requested `top_k`,
`graphResp` is `find_related_entities` keyed by entity id, and
`commResp` is the Neo4j side of `detect_communities` (whose own
`try/except` turns an exception into `[]`, line 345-351).  The
surrounding `try/except` of `process_query` logs and re-raises, so any
exception of the body propagates to the caller. -/
def process_query (pineconeReady : Bool)
    (semResp : Nat → Except String (List SemHit))
    (graphResp : String → Except String (List GraphEntity))
    (commResp : Except String (List Community))
    (query : String) (include_embeddings : Bool := true) :
    Except String QueryResult := do
  let semantic_results := semantic_search pineconeReady semResp query 20
  let entity_context ← extract_entity_context semantic_results
  let graph_context ← graphContextLoop graphResp entity_context
  let hybrid_results ←
    if include_embeddings && !entity_context.isEmpty then do
      let graph_text_context ← graphTextContext graph_context
      (.ok (hybrid_search pineconeReady semResp query graph_text_context 15) :
        Except String (List HybridHit))
    else
      .ok ((semantic_results.take 15).map fun h => ({ hit := h } : HybridHit))
  let communities := match commResp with
    | .ok cs => cs
    | .error _ => []
  let insights := generate_graphrag_insights semantic_results graph_context
    hybrid_results communities
  .ok {
    insights := insights
    entityCount := entity_context.length
    relationshipCount := (graph_context.filter fun e => e.distance.isSome).length
    communityCount := communities.length
    semanticResults := semantic_results.take 5
    graphContext := graph_context.take 10 }

/-! ### Insight ranking (`_rank_and_deduplicate_insights`, lines 428-443) -/

/-- The string deduplication key `f"{insight.get('type','')}_{insight.get('summary','')[:50]}"`
of line 435. -/
def insightKey (i : Insight) : String :=
  i.type' ++ "_" ++ pyTake i.summary 50

/-- The deduplication pass: keep an insight iff its string key was not
seen before. -/
def dedupInsightsLoop (seen : List String) : List Insight → List Insight
  | [] => []
  | i :: rest =>
      if insightKey i ∈ seen then dedupInsightsLoop seen rest
      else i :: dedupInsightsLoop (insightKey i :: seen) rest

/-- Model of `_rank_and_deduplicate_insights`: deduplicate by the
concatenated key keeping first occurrences, then stable-sort descending
by confidence. -/
def rank_and_deduplicate_insights (insights : List Insight) : List Insight :=
  sortDescBy (fun i => i.confidence) (dedupInsightsLoop [] insights)

end GraphRAG

namespace GraphRAG

/-! ## Claims -/

/-- C7: classifying the text "We discussed pricing and budget concerns"
yields exactly one Topic, of category "pricing", whose keyword match
count is 2 (the matched keywords are "budget" and "pricing"), whose
importance is 2/8 = 0.25, and whose confidence is 0.3 + 0.7·0.25 =
0.475. -/
theorem C7_pricing_example :
    ∃ nmatch imp conf : Rat,
      extract_topics_from_text "We discussed pricing and budget concerns" =
        [Value.dict [
          ("id", .str "topic_pricing"),
          ("name", .str "Pricing"),
          ("category", .str "pricing"),
          ("importance", .num imp),
          ("keyword_matches", .num nmatch),
          ("confidence", .num conf),
          ("source", .str "text_analysis")]] ∧
      nmatch = 2 ∧ imp = 2 / 8 ∧ imp = 0.25 ∧
      conf = 0.3 + 0.7 * 0.25 ∧ conf = 0.475 := by
  have hm : (List.filter
      (fun kw => strIn kw (pyLower "We discussed pricing and budget concerns"))
      ["price", "cost", "budget", "pricing", "discount", "fee", "payment",
        "invoice"]).length = 2 := rfl
  refine ⟨_, _, _, rfl, ?_, ?_, ?_, ?_, ?_⟩ <;>
    rw [hm] <;> norm_num [inf_eq_min, min_def]

end GraphRAG

namespace GraphRAG

/-! ### Helper lemmas on the stable descending sort -/

theorem mem_insertDescBy {α : Type} (key : α → Rat) (x : α) (l : List α)
    (a : α) : a ∈ insertDescBy key x l ↔ a = x ∨ a ∈ l := by
  induction l with
  | nil => simp [insertDescBy]
  | cons y ys ih =>
      by_cases h : key y > key x <;> simp [insertDescBy, h, ih] <;> tauto

theorem mem_sortDescBy {α : Type} (key : α → Rat) (l : List α) (a : α) :
    a ∈ sortDescBy key l ↔ a ∈ l := by
  induction l with
  | nil => simp [sortDescBy]
  | cons y ys ih => simp [sortDescBy, mem_insertDescBy, ih]

theorem pairwise_insertDescBy {α : Type} (key : α → Rat) (x : α) (l : List α)
    (h : l.Pairwise fun a b => key a ≥ key b) :
    (insertDescBy key x l).Pairwise fun a b => key a ≥ key b := by
  induction l with
  | nil => simp [insertDescBy]
  | cons y ys ih =>
      rcases List.pairwise_cons.mp h with ⟨hy, hys⟩
      by_cases hgt : key y > key x
      · rw [insertDescBy, if_pos hgt]
        refine List.pairwise_cons.mpr ⟨?_, ih hys⟩
        intro a ha
        rcases (mem_insertDescBy key x ys a).mp ha with rfl | ha
        · exact le_of_lt hgt
        · exact hy a ha
      · rw [insertDescBy, if_neg hgt]
        refine List.pairwise_cons.mpr ⟨?_, h⟩
        intro a ha
        rcases List.mem_cons.mp ha with rfl | ha
        · exact le_of_not_lt hgt
        · exact le_trans (hy a ha) (le_of_not_lt hgt)

theorem pairwise_sortDescBy {α : Type} (key : α → Rat) (l : List α) :
    (sortDescBy key l).Pairwise fun a b => key a ≥ key b := by
  induction l with
  | nil => simp [sortDescBy]
  | cons y ys ih => exact pairwise_insertDescBy key y (sortDescBy key ys) ih

/-- Inserting an element whose key differs from `c` does not disturb the
`key = c` fibre. -/
theorem filter_insertDescBy_ne {α : Type} (key : α → Rat) (x : α) (l : List α)
    (c : Rat) (hx : key x ≠ c) :
    (insertDescBy key x l).filter (fun a => key a == c) =
      l.filter fun a => key a == c := by
  induction l with
  | nil => simp [insertDescBy, List.filter_cons, beq_iff_eq, hx]
  | cons y ys ih =>
      by_cases h : key y > key x
      · rw [insertDescBy, if_pos h]
        by_cases hy : key y = c <;>
          simp [List.filter_cons, beq_iff_eq, hy, ih]
      · rw [insertDescBy, if_neg h]
        simp [List.filter_cons, beq_iff_eq, hx]

/-- Inserting an element with key `c` into a descending-sorted list puts
it in front of the whole `key = c` fibre. -/
theorem filter_insertDescBy_eq {α : Type} (key : α → Rat) (x : α) (l : List α)
    (c : Rat) (hx : key x = c)
    (hl : l.Pairwise fun a b => key a ≥ key b) :
    (insertDescBy key x l).filter (fun a => key a == c) =
      x :: l.filter fun a => key a == c := by
  induction l with
  | nil => simp [insertDescBy, List.filter_cons, beq_iff_eq, hx]
  | cons y ys ih =>
      rcases List.pairwise_cons.mp hl with ⟨hy, hys⟩
      by_cases h : key y > key x
      · have hyc : key y ≠ c := by
          intro hc
          rw [hx] at h
          exact absurd hc (ne_of_gt h)
        rw [insertDescBy, if_pos h]
        simp only [List.filter_cons, beq_iff_eq, hyc, if_neg, ite_false]
        simpa [hyc] using ih hys
      · rw [insertDescBy, if_neg h]
        simp [List.filter_cons, beq_iff_eq, hx]

/-- Stability of the sort: every `key = c` fibre of the output is the
corresponding fibre of the input, in input order. -/
theorem filter_sortDescBy {α : Type} (key : α → Rat) (l : List α) (c : Rat) :
    (sortDescBy key l).filter (fun a => key a == c) =
      l.filter fun a => key a == c := by
  induction l with
  | nil => simp [sortDescBy]
  | cons y ys ih =>
      rw [sortDescBy]
      by_cases hy : key y = c
      · rw [filter_insertDescBy_eq key y _ c hy (pairwise_sortDescBy key ys)]
        simp [List.filter_cons, beq_iff_eq, hy, ih]
      · rw [filter_insertDescBy_ne key y _ c hy]
        simp [List.filter_cons, beq_iff_eq, hy, ih]

end GraphRAG

namespace GraphRAG

/-- C2 (amended): for every query, graph-context list and semantic
result set, each hit returned by `hybrid_search` carries
`hybrid_score = 0.7·score + 0.3·(overlap / max(|context_keywords|, 1))`
exactly, and its `context_relevance` field is the raw overlap count, a
natural number bounded by `|context_keywords|`, so the ratio entering
the score (not the stored field) lies in [0, 1]. -/
theorem C2_hybrid_scoring (ready : Bool)
    (semResp : Nat → Except String (List SemHit)) (query : String)
    (graph_context : List String) (top_k : Nat) (r : HybridHit)
    (hr : r ∈ hybrid_search ready semResp query graph_context top_k) :
    r.hybrid_score = Option.some (0.7 * r.hit.score +
      0.3 * ((contextOverlap (contextKeywords graph_context) r.hit.text : Rat) /
        ((max (contextKeywords graph_context).card 1 : Nat) : Rat))) ∧
    r.context_relevance =
      Option.some (contextOverlap (contextKeywords graph_context) r.hit.text) ∧
    contextOverlap (contextKeywords graph_context) r.hit.text ≤
      (contextKeywords graph_context).card ∧
    0 ≤ (contextOverlap (contextKeywords graph_context) r.hit.text : Rat) /
        ((max (contextKeywords graph_context).card 1 : Nat) : Rat) ∧
    (contextOverlap (contextKeywords graph_context) r.hit.text : Rat) /
        ((max (contextKeywords graph_context).card 1 : Nat) : Rat) ≤ 1 := by
  have hr' := List.mem_of_mem_take hr
  rw [mem_sortDescBy] at hr'
  rcases List.mem_map.mp hr' with ⟨h, _, rfl⟩
  set ck := contextKeywords graph_context with hck
  have hle : contextOverlap ck h.text ≤ ck.card :=
    Finset.card_le_card Finset.inter_subset_left
  have hpos : (0 : Rat) < ((max ck.card 1 : Nat) : Rat) := by
    have : (1 : Nat) ≤ max ck.card 1 := le_max_right _ _
    exact_mod_cast Nat.lt_of_lt_of_le Nat.zero_lt_one this
  refine ⟨?_, rfl, hle, ?_, ?_⟩
  · simp only [scoreHit]
    congr 1
    ring
  · exact div_nonneg (by exact_mod_cast Nat.zero_le _) (le_of_lt hpos)
  · rw [div_le_one hpos]
    have : contextOverlap ck h.text ≤ max ck.card 1 :=
      le_trans hle (le_max_left _ _)
    exact_mod_cast this

/-- Witness for C2 (amended) at a concrete hit: the single scored hit of
a one-element semantic result set satisfies the stored-field equations. -/
theorem C2_hybrid_scoring_witness :
    (scoreHit (contextKeywords ["alpha beta"])
        { id := "d", score := 1, metadata := .dict [], text := "alpha" }).context_relevance =
      Option.some (contextOverlap (contextKeywords ["alpha beta"]) "alpha") :=
  (C2_hybrid_scoring true
    (fun _ => .ok [{ id := "d", score := 1, metadata := .dict [], text := "alpha" }])
    "q" ["alpha beta"] 10 _ (List.Mem.head _)).2.1

/-- C2 (counterexample to the claim as stated): with graph context
`["Alpha Beta"]` and one semantic hit of score 0.5 and text
"alpha beta", the stored `context_relevance` is the overlap count 2,
which is not in [0, 1], and the stored `hybrid_score` is
0.5·0.7 + (2/2)·0.3 = 0.65, not 0.7·0.5 + 0.3·2 = 0.95. -/
theorem C2_counterexample :
    ∃ r : HybridHit, ∃ ov : Nat, ∃ hs : Rat,
      hybrid_search true
        (fun _ => .ok
          [{ id := "d1", score := 0.5, metadata := .dict [], text := "alpha beta" }])
        "q" ["Alpha Beta"] 10 = [r] ∧
      r.context_relevance = Option.some ov ∧ ov = 2 ∧ ¬((ov : Rat) ≤ 1) ∧
      r.hybrid_score = Option.some hs ∧ hs = 0.65 ∧
      hs ≠ 0.7 * 0.5 + 0.3 * 2 := by
  refine ⟨_, _, _, rfl, rfl, ?_, ?_, rfl, ?_, ?_⟩
  · decide
  · have h2 : contextOverlap (contextKeywords ["Alpha Beta"]) "alpha beta" = 2 := by
      decide
    rw [h2]
    norm_num
  · have h2 : contextOverlap (contextKeywords ["Alpha Beta"]) "alpha beta" = 2 := by
      decide
    have hc : (contextKeywords ["Alpha Beta"]).card = 2 := by decide
    rw [h2, hc]
    norm_num
  · have h2 : contextOverlap (contextKeywords ["Alpha Beta"]) "alpha beta" = 2 := by
      decide
    have hc : (contextKeywords ["Alpha Beta"]).card = 2 := by decide
    rw [h2, hc]
    norm_num

end GraphRAG

namespace GraphRAG

/-- Specification of keep-first deduplication: an insight survives iff
no earlier insight of the input (kept or not) has the same key; `prior`
accumulates the keys of all earlier elements. -/
def firstOccurrenceByKey (prior : List String) : List Insight → List Insight
  | [] => []
  | i :: rest =>
      if insightKey i ∈ prior then
        firstOccurrenceByKey (insightKey i :: prior) rest
      else i :: firstOccurrenceByKey (insightKey i :: prior) rest

theorem dedupInsightsLoop_eq_firstOccurrence (l : List Insight) :
    ∀ seen prior : List String, (∀ k, k ∈ seen ↔ k ∈ prior) →
      dedupInsightsLoop seen l = firstOccurrenceByKey prior l := by
  induction l with
  | nil => intro seen prior _; rfl
  | cons i rest ih =>
      intro seen prior hequiv
      rw [dedupInsightsLoop, firstOccurrenceByKey]
      by_cases hk : insightKey i ∈ prior
      · rw [if_pos ((hequiv _).mpr hk), if_pos hk]
        refine ih seen (insightKey i :: prior) fun k => ?_
        rw [List.mem_cons]
        constructor
        · intro h; right; exact (hequiv k).mp h
        · rintro (rfl | h)
          · exact (hequiv _).mpr hk
          · exact (hequiv k).mpr h
      · rw [if_neg fun h => hk ((hequiv _).mp h), if_neg hk]
        refine congrArg (i :: ·) (ih _ _ fun k => ?_)
        simp only [List.mem_cons]
        rw [hequiv k]

/-- C5 (amended): the ranker deduplicates by the concatenated string
key `type + "_" + summary[:50]` keeping the first occurrence of each
key, then stable-sorts descending by confidence: in the output any
insight preceding another has confidence at least as large, and every
equal-confidence fibre keeps the relative order the insights had after
deduplication.  The claim's concrete example holds: for 5 candidates
with confidences [0.9, 0.9, 0.6, 0.3, 0.9] of which the two first
0.9-insights share the key, the output has length 4 and its first
element has confidence 0.9. -/
theorem C5_rank_and_deduplicate (insights : List Insight) :
    ((rank_and_deduplicate_insights insights).Pairwise
      fun a b => a.confidence ≥ b.confidence) ∧
    (∀ c : Rat, (rank_and_deduplicate_insights insights).filter
        (fun i => i.confidence == c) =
      (dedupInsightsLoop [] insights).filter fun i => i.confidence == c) ∧
    dedupInsightsLoop [] insights = firstOccurrenceByKey [] insights ∧
    ((rank_and_deduplicate_insights
        [{ type' := "t", confidence := 0.9, summary := "s" },
         { type' := "t", confidence := 0.9, summary := "s" },
         { type' := "t2", confidence := 0.6, summary := "s2" },
         { type' := "t3", confidence := 0.3, summary := "s3" },
         { type' := "t4", confidence := 0.9, summary := "s4" }]).length = 4 ∧
      ((rank_and_deduplicate_insights
        [{ type' := "t", confidence := 0.9, summary := "s" },
         { type' := "t", confidence := 0.9, summary := "s" },
         { type' := "t2", confidence := 0.6, summary := "s2" },
         { type' := "t3", confidence := 0.3, summary := "s3" },
         { type' := "t4", confidence := 0.9, summary := "s4" }]).head?.map
          Insight.confidence) = Option.some 0.9) := by
  refine ⟨pairwise_sortDescBy _ _,
    fun c => filter_sortDescBy (fun i : Insight => i.confidence) _ c,
    dedupInsightsLoop_eq_firstOccurrence _ [] [] (fun _ => Iff.rfl), ?_⟩
  have hk1 : insightKey { type' := "t", confidence := 0.9, summary := "s" } =
      "t_s" := rfl
  have hk3 : insightKey { type' := "t2", confidence := 0.6, summary := "s2" } =
      "t2_s2" := rfl
  have hk4 : insightKey { type' := "t3", confidence := 0.3, summary := "s3" } =
      "t3_s3" := rfl
  have hk5 : insightKey { type' := "t4", confidence := 0.9, summary := "s4" } =
      "t4_s4" := rfl
  norm_num [rank_and_deduplicate_insights, dedupInsightsLoop, hk1, hk3, hk4,
    hk5, sortDescBy, insertDescBy]

end GraphRAG

namespace GraphRAG

/-- C5 (counterexample to the claim as stated): the deduplication key is
the concatenated string, not the pair `(type, summary[:50])`.  The two
insights with type "a_b"/summary "c" and type "a"/summary "b_c" have
distinct pairs but the same concatenation "a_b_c", so the ranker keeps
only one of them. -/
theorem C5_counterexample :
    (rank_and_deduplicate_insights
      [{ type' := "a_b", confidence := 0.9, summary := "c" },
       { type' := "a", confidence := 0.8, summary := "b_c" }]).length = 1 ∧
    ({ type' := "a_b", confidence := 0.9, summary := "c" } : Insight).type' ≠
      ({ type' := "a", confidence := 0.8, summary := "b_c" } : Insight).type' ∧
    insightKey { type' := "a_b", confidence := 0.9, summary := "c" } =
      insightKey { type' := "a", confidence := 0.8, summary := "b_c" } := by
  have hk1 : insightKey { type' := "a_b", confidence := 0.9, summary := "c" } =
      "a_b_c" := rfl
  have hk2 : insightKey { type' := "a", confidence := 0.8, summary := "b_c" } =
      "a_b_c" := rfl
  refine ⟨?_, by decide, by rw [hk1, hk2]⟩
  norm_num [rank_and_deduplicate_insights, dedupInsightsLoop, hk1, hk2,
    sortDescBy, insertDescBy]

end GraphRAG

namespace GraphRAG

open Value

/-! ### Helper lemmas on `Except` binds -/

@[simp] theorem ok_bind {α β : Type} (a : α) (f : α → Except String β) :
    (Except.ok a : Except String α) >>= f = f a := rfl

@[simp] theorem error_bind {α β : Type} (msg : String)
    (f : α → Except String β) :
    (Except.error msg : Except String α) >>= f = Except.error msg := rfl

theorem bind_eq_ok {α β : Type} {x : Except String α}
    {f : α → Except String β} {b : β} :
    x >>= f = .ok b ↔ ∃ a, x = .ok a ∧ f a = .ok b := by
  cases x <;> simp

/-! ### Helper lemmas on entity deduplication -/

/-- Canonical key of a hashable scalar, identifying the values Python
hashes equal (`True` with `1`, `False` with `0`). -/
def scalarKey : Value → Option (Sum Rat (Sum String Unit))
  | .num q => Option.some (Sum.inl q)
  | .bool b => Option.some (Sum.inl (if b then 1 else 0))
  | .str t => Option.some (Sum.inr (Sum.inl t))
  | .none => Option.some (Sum.inr (Sum.inr ()))
  | _ => Option.none

theorem pyEq_eq_scalarKey {a b : Value} (ha : hashable a = .ok ())
    (hb : hashable b = .ok ()) :
    pyEq a b = decide (scalarKey a = scalarKey b) := by
  cases a <;> cases b <;>
    simp only [hashable, reduceCtorEq] at ha hb
  all_goals apply Bool.eq_iff_iff.mpr
  all_goals simp only [pyEq, scalarKey, beq_iff_eq, decide_eq_true_eq,
    Option.some.injEq, Sum.inr.injEq, Sum.inl.injEq, reduceCtorEq]
  all_goals (rename_i x y; cases x <;> cases y <;> simp)

theorem pyEq_symm {a b : Value} (ha : hashable a = .ok ())
    (hb : hashable b = .ok ()) : pyEq a b = pyEq b a := by
  rw [pyEq_eq_scalarKey ha hb, pyEq_eq_scalarKey hb ha]
  apply Bool.eq_iff_iff.mpr
  simp only [decide_eq_true_eq]
  exact eq_comm

theorem pyEq_trans {a b c : Value} (ha : hashable a = .ok ())
    (hb : hashable b = .ok ()) (hc : hashable c = .ok ())
    (h1 : pyEq a b = true) (h2 : pyEq b c = true) : pyEq a c = true := by
  rw [pyEq_eq_scalarKey ha hb, decide_eq_true_eq] at h1
  rw [pyEq_eq_scalarKey hb hc, decide_eq_true_eq] at h2
  rw [pyEq_eq_scalarKey ha hc, decide_eq_true_eq]
  exact h1.trans h2

/-- The `id` an entity contributes to the seen-set (`entity.get('id', '')`),
when the entity is a dictionary. -/
def entityId? (e : Value) : Option Value :=
  match e.vGetD "id" (.str "") with
  | .ok i => Option.some i
  | .error _ => Option.none

/-- Python-equality of the ids of two entities (false when either id is
not extractable). -/
def idMatches (p e : Value) : Bool :=
  match entityId? p, entityId? e with
  | Option.some a, Option.some b => pyEq a b
  | _, _ => false

/-- Specification of keep-first deduplication of one bucket: an entity
survives iff no earlier entity of the bucket has a Python-equal id;
`prior` accumulates all earlier entities. -/
def keepFirstById (prior : List Value) : List Value → List Value
  | [] => []
  | e :: rest =>
      if prior.any fun p => idMatches p e then keepFirstById (prior ++ [e]) rest
      else e :: keepFirstById (prior ++ [e]) rest

theorem dedupeLoop_idem (l : List Value) :
    ∀ seen r, dedupeLoop seen l = .ok r → dedupeLoop seen r = .ok r := by
  induction l with
  | nil =>
      intro seen r h
      cases h
      rfl
  | cons e rest ih =>
      intro seen r h
      rw [dedupeLoop] at h
      cases he : e.vGetD "id" (.str "") with
      | error msg => rw [he] at h; dsimp only at h; cases h
      | ok i =>
          rw [he] at h
          dsimp only at h
          cases hh : hashable i with
          | error msg => rw [hh] at h; dsimp only at h; cases h
          | ok u =>
              cases u
              rw [hh] at h
              dsimp only at h
              by_cases hs : (seen.any fun s => pyEq i s) = true
              · rw [if_pos hs] at h
                exact ih seen r h
              · rw [if_neg hs] at h
                cases hr : dedupeLoop (i :: seen) rest with
                | error msg => rw [hr] at h; dsimp only at h; cases h
                | ok r2 =>
                    rw [hr] at h
                    dsimp only at h
                    cases h
                    rw [dedupeLoop, he]
                    dsimp only
                    rw [hh]
                    dsimp only
                    rw [if_neg hs, ih _ _ hr]

theorem dedupeLoop_length (l : List Value) :
    ∀ seen r, dedupeLoop seen l = .ok r → r.length ≤ l.length := by
  induction l with
  | nil =>
      intro seen r h
      cases h
      simp
  | cons e rest ih =>
      intro seen r h
      rw [dedupeLoop] at h
      cases he : e.vGetD "id" (.str "") with
      | error msg => rw [he] at h; dsimp only at h; cases h
      | ok i =>
          rw [he] at h
          dsimp only at h
          cases hh : hashable i with
          | error msg => rw [hh] at h; dsimp only at h; cases h
          | ok u =>
              cases u
              rw [hh] at h
              dsimp only at h
              by_cases hs : (seen.any fun s => pyEq i s) = true
              · rw [if_pos hs] at h
                exact le_trans (ih seen r h) (Nat.le_succ _)
              · rw [if_neg hs] at h
                cases hr : dedupeLoop (i :: seen) rest with
                | error msg => rw [hr] at h; dsimp only at h; cases h
                | ok r2 =>
                    rw [hr] at h
                    dsimp only at h
                    cases h
                    simpa using ih _ _ hr

end GraphRAG

namespace GraphRAG

open Value

theorem dedupeLoop_keepFirst (l : List Value) :
    ∀ (seen prior : List Value) (r : List Value),
      (∀ s ∈ seen, hashable s = .ok ()) →
      (∀ f j, entityId? f = Option.some j → hashable j = .ok () →
        (seen.any fun s => pyEq j s) = prior.any fun p => idMatches p f) →
      dedupeLoop seen l = .ok r → r = keepFirstById prior l := by
  induction l with
  | nil =>
      intro seen prior r _ _ h
      cases h
      rfl
  | cons e rest ih =>
      intro seen prior r hseen hinv h
      rw [dedupeLoop] at h
      cases he : e.vGetD "id" (.str "") with
      | error msg => rw [he] at h; dsimp only at h; cases h
      | ok i =>
          rw [he] at h
          dsimp only at h
          cases hh : hashable i with
          | error msg => rw [hh] at h; dsimp only at h; cases h
          | ok u =>
              cases u
              rw [hh] at h
              dsimp only at h
              have hei : entityId? e = Option.some i := by
                rw [entityId?, he]
              have hcond := hinv e i hei hh
              have hmatch : ∀ f j, entityId? f = Option.some j →
                  hashable j = .ok () → idMatches e f = pyEq i j := by
                intro f j hf _
                rw [idMatches, hei, hf]
              rw [keepFirstById]
              by_cases hs : (seen.any fun s => pyEq i s) = true
              · rw [if_pos hs] at h
                rw [if_pos (by rw [← hcond]; exact hs)]
                refine ih seen (prior ++ [e]) r hseen ?_ h
                intro f j hf hj
                rw [List.any_append, ← hinv f j hf hj]
                simp only [List.any_cons, List.any_nil, Bool.or_false]
                rw [hmatch f j hf hj]
                by_cases hij : pyEq i j = true
                · have hji : pyEq j i = true := by
                    rw [pyEq_symm hj hh]; exact hij
                  rcases List.any_eq_true.mp hs with ⟨s, hsmem, his⟩
                  have hjs : pyEq j s = true :=
                    pyEq_trans hj hh (hseen s hsmem) hji his
                  have : (seen.any fun s => pyEq j s) = true :=
                    List.any_eq_true.mpr ⟨s, hsmem, hjs⟩
                  rw [this, hij, Bool.or_true]
                · rw [Bool.not_eq_true] at hij
                  rw [hij, Bool.or_false]
              · rw [if_neg hs] at h
                rw [if_neg (by rw [← hcond]; exact hs)]
                cases hr : dedupeLoop (i :: seen) rest with
                | error msg => rw [hr] at h; dsimp only at h; cases h
                | ok r2 =>
                    rw [hr] at h
                    dsimp only at h
                    cases h
                    refine congrArg (e :: ·) (ih (i :: seen) (prior ++ [e]) r2 ?_ ?_ hr)
                    · intro s hsmem
                      rcases List.mem_cons.mp hsmem with rfl | hsmem
                      · exact hh
                      · exact hseen s hsmem
                    · intro f j hf hj
                      rw [List.any_append, ← hinv f j hf hj]
                      simp only [List.any_cons, List.any_nil, Bool.or_false]
                      rw [hmatch f j hf hj, pyEq_symm hj hh, Bool.or_comm]

/-- Keep-first deduplication of one bucket, from the empty seen-set. -/
theorem dedupeLoop_keepFirst_nil (l r : List Value)
    (h : dedupeLoop [] l = .ok r) : r = keepFirstById [] l :=
  dedupeLoop_keepFirst l [] [] r (by simp) (by simp) h

end GraphRAG

namespace GraphRAG

open Value

/-- C6: entity deduplication, applied per variant bucket, is idempotent,
never increases a bucket's size, collapses entities with a Python-equal
id keeping the first-seen record (`keepFirstById`), and leaves the
relationships list unchanged. -/
theorem C6_deduplication (X Y : Buckets)
    (h : deduplicate_entities X = .ok Y) :
    deduplicate_entities Y = .ok Y ∧
    Y.people.length ≤ X.people.length ∧
    Y.organizations.length ≤ X.organizations.length ∧
    Y.topics.length ≤ X.topics.length ∧
    Y.events.length ≤ X.events.length ∧
    Y.people = keepFirstById [] X.people ∧
    Y.organizations = keepFirstById [] X.organizations ∧
    Y.topics = keepFirstById [] X.topics ∧
    Y.events = keepFirstById [] X.events ∧
    Y.relationships = X.relationships := by
  rw [deduplicate_entities] at h
  rcases bind_eq_ok.mp h with ⟨p, hp, h⟩
  rcases bind_eq_ok.mp h with ⟨o, ho, h⟩
  rcases bind_eq_ok.mp h with ⟨t, ht, h⟩
  rcases bind_eq_ok.mp h with ⟨e, he, h⟩
  cases h
  refine ⟨?_, dedupeLoop_length _ _ _ hp, dedupeLoop_length _ _ _ ho,
    dedupeLoop_length _ _ _ ht, dedupeLoop_length _ _ _ he,
    dedupeLoop_keepFirst_nil _ _ hp, dedupeLoop_keepFirst_nil _ _ ho,
    dedupeLoop_keepFirst_nil _ _ ht, dedupeLoop_keepFirst_nil _ _ he, rfl⟩
  rw [deduplicate_entities]
  simp only [dedupeLoop_idem _ _ _ hp, dedupeLoop_idem _ _ _ ho,
    dedupeLoop_idem _ _ _ ht, dedupeLoop_idem _ _ _ he, ok_bind]

/-- Witness for C6 at a concrete bucket mapping: two people sharing the
id "a" collapse to the first record and the dedupe is idempotent. -/
theorem C6_deduplication_witness :
    deduplicate_entities
      { people := [Value.dict [("id", .str "a"), ("role", .str "first")]],
        relationships := [Value.str "r"] } =
      .ok { people := [Value.dict [("id", .str "a"), ("role", .str "first")]],
            relationships := [Value.str "r"] } :=
  (C6_deduplication
    { people := [Value.dict [("id", .str "a"), ("role", .str "first")],
                 Value.dict [("id", .str "a"), ("role", .str "second")]],
      relationships := [Value.str "r"] }
    { people := [Value.dict [("id", .str "a"), ("role", .str "first")]],
      relationships := [Value.str "r"] }
    (by rfl)).1

end GraphRAG

namespace GraphRAG

open Value

/-- C4 (amended): relationship inference runs on the entity buckets as
merged from the sources plus the primary-account organization, before
deduplication; deduplication then leaves the relationships list
unchanged, so the returned relationships are a pure function of the
non-deduplicated entity set. -/
theorem C4_relationships_before_dedup (d : Value) (out : Buckets)
    (h : extract_from_account_data d true = .ok out) :
    ∃ (pre : Buckets) (rels : List Value),
      extract_relationships pre = .ok rels ∧
      deduplicate_entities { pre with relationships := rels } = .ok out ∧
      out.relationships = rels := by
  rw [extract_from_account_data] at h
  rcases bind_eq_ok.mp h with ⟨anv, hanv, h⟩
  rcases bind_eq_ok.mp h with ⟨b5, hb5, h⟩
  cases anv with
  | num q => dsimp only [error_bind] at h; cases h
  | bool b => dsimp only [error_bind] at h; cases h
  | none => dsimp only [error_bind] at h; cases h
  | list xs => dsimp only [error_bind] at h; cases h
  | dict xs => dsimp only [error_bind] at h; cases h
  | str s =>
      dsimp only [ok_bind] at h
      rw [if_pos rfl] at h
      rcases bind_eq_ok.mp h with ⟨rels, hrels, h⟩
      refine ⟨_, rels, hrels, h, ?_⟩
      rw [deduplicate_entities] at h
      rcases bind_eq_ok.mp h with ⟨p, _, h⟩
      rcases bind_eq_ok.mp h with ⟨o, _, h⟩
      rcases bind_eq_ok.mp h with ⟨t, _, h⟩
      rcases bind_eq_ok.mp h with ⟨e, _, h⟩
      cases h
      rfl

/-- Witness for C4 (amended) at the empty account-data dictionary. -/
theorem C4_relationships_before_dedup_witness :
    ∃ (pre : Buckets) (rels : List Value),
      extract_relationships pre = .ok rels ∧
      deduplicate_entities { pre with relationships := rels } =
        .ok { organizations := [Value.dict [
                ("id", .str "unknown"), ("name", .str "unknown"),
                ("type", .str "primary_account"),
                ("industry", .str "technology"),
                ("confidence", .num 1.0)]] } ∧
      ({ organizations := [Value.dict [
                ("id", .str "unknown"), ("name", .str "unknown"),
                ("type", .str "primary_account"),
                ("industry", .str "technology"),
                ("confidence", .num 1.0)]] } : Buckets).relationships = rels :=
  C4_relationships_before_dedup (.dict []) _ (by rfl)

/-- C4 (counterexample to the claim as stated): with two stakeholder
records sharing the name "A" where only the second carries an
organization, the returned relationships contain the WORKS_FOR edge
derived from the second (pre-dedup) record, while relationship
inference applied to the already-deduplicated output buckets yields no
relationship at all. -/
theorem C4_counterexample :
    ∃ out : Buckets,
      extract_from_account_data
        (Value.dict [("stakeholders", .list [
          .dict [("name", .str "A")],
          .dict [("name", .str "A"), ("organization", .str "Acme")]])])
        true = .ok out ∧
      out.relationships.length = 1 ∧
      extract_relationships out = .ok [] := by
  refine ⟨_, rfl, rfl, rfl⟩

end GraphRAG

namespace GraphRAG

open Value

/-- Dictionary test, modelling `isinstance(x, dict)`. -/
def Value.isDict : Value → Bool
  | .dict _ => true
  | _ => false

/-- C3 (amended): non-dictionary items in the calls and stakeholders
collections are skipped silently, but normalization is not total: an
otherwise well-formed call record whose transcript contains a non-dict
turn raises (`turn.get` on a string), as does a non-string participant
(see the counterexample). -/
theorem C3_malformed_items :
    (∀ (v : Value) (rest : List Value), v.isDict = false →
      callsLoop (v :: rest) = callsLoop rest) ∧
    (∀ (v : Value) (rest : List Value), v.isDict = false →
      stakeholderLoop (v :: rest) = stakeholderLoop rest) ∧
    extract_from_account_data
      (Value.dict [("calls", .list [
        .dict [("transcript", .list [.str "hello"])]])]) true =
      .error "AttributeError: object has no attribute get" := by
  refine ⟨?_, ?_, rfl⟩
  · intro v rest hv
    cases v <;> simp [callsLoop] <;> cases hv
  · intro v rest hv
    cases v <;> simp [stakeholderLoop] <;> cases hv

/-- Witness for C3 (amended): a numeric item in the calls collection is
skipped. -/
theorem C3_malformed_items_witness :
    callsLoop [Value.num 5] = callsLoop [] :=
  C3_malformed_items.1 (.num 5) [] (by rfl)

/-- C3 (counterexample to the claim as stated): a call record whose
participants list contains the number 1 makes extraction raise
(`participant.lower()` on an int), so malformed items inside a call
record are not skipped silently. -/
theorem C3_counterexample :
    extract_from_account_data
      (Value.dict [("calls", .list [
        .dict [("participants", .list [.num 1])]])]) true =
      .error "AttributeError: object has no attribute lower" := by
  rfl

end GraphRAG

namespace GraphRAG

open Value

/-! ### Confidence bounds of extracted entities (claim C1) -/

/-- The `confidence` value stored in an entity dictionary. -/
def confValue (e : Value) : Option Value :=
  match e with
  | .dict xs => dictGet? xs "confidence"
  | _ => Option.none

/-- An entity carries a numeric confidence in the interval `[0, 1]`. -/
def confidenceOK (e : Value) : Prop :=
  ∃ q : Rat, confValue e = Option.some (.num q) ∧ 0 ≤ q ∧ q ≤ 1

/-- Every entity of a four-bucket extraction result has confidence in
`[0, 1]`. -/
def B4OK (b : Buckets4) : Prop :=
  (∀ e ∈ b.people, confidenceOK e) ∧
  (∀ e ∈ b.organizations, confidenceOK e) ∧
  (∀ e ∈ b.topics, confidenceOK e) ∧
  (∀ e ∈ b.events, confidenceOK e)

/-- Every entity of the four entity buckets has confidence in `[0, 1]`
(the relationships bucket holds edges, not entities). -/
def BOK (b : Buckets) : Prop :=
  (∀ e ∈ b.people, confidenceOK e) ∧
  (∀ e ∈ b.organizations, confidenceOK e) ∧
  (∀ e ∈ b.topics, confidenceOK e) ∧
  (∀ e ∈ b.events, confidenceOK e)

theorem B4OK_empty : B4OK {} := by
  refine ⟨?_, ?_, ?_, ?_⟩ <;> intro e he <;> cases he

theorem B4OK_merge4 {a b : Buckets4} (ha : B4OK a) (hb : B4OK b) :
    B4OK (merge4 a b) := by
  obtain ⟨ha1, ha2, ha3, ha4⟩ := ha
  obtain ⟨hb1, hb2, hb3, hb4⟩ := hb
  refine ⟨?_, ?_, ?_, ?_⟩ <;> intro e he <;>
    rcases List.mem_append.mp he with h | h
  · exact ha1 e h
  · exact hb1 e h
  · exact ha2 e h
  · exact hb2 e h
  · exact ha3 e h
  · exact hb3 e h
  · exact ha4 e h
  · exact hb4 e h

theorem BOK_merge {t : Buckets} {s : Buckets4} (ht : BOK t) (hs : B4OK s) :
    BOK (merge_entities t s) := by
  obtain ⟨ht1, ht2, ht3, ht4⟩ := ht
  obtain ⟨hs1, hs2, hs3, hs4⟩ := hs
  refine ⟨?_, ?_, ?_, ?_⟩ <;> intro e he <;>
    rcases List.mem_append.mp he with h | h
  · exact ht1 e h
  · exact hs1 e h
  · exact ht2 e h
  · exact hs2 e h
  · exact ht3 e h
  · exact hs3 e h
  · exact ht4 e h
  · exact hs4 e h

theorem confOK_topics {s : String} :
    ∀ t ∈ extract_topics_from_text s, confidenceOK t := by
  intro t ht
  simp only [extract_topics_from_text] at ht
  split at ht
  · cases ht
  · rcases List.mem_append.mp ht with h | h
    · rcases List.mem_filterMap.mp h with ⟨p, _, hmk⟩
      split at hmk
      · rw [Option.some.injEq] at hmk
        subst hmk
        refine ⟨_, rfl, ?_, ?_⟩
        · have h0 : (0 : Rat) ≤
              min (((p.2.filter fun kw => strIn kw (pyLower s)).length : Rat) /
                (p.2.length : Rat)) 1.0 :=
            le_min (div_nonneg (Nat.cast_nonneg _) (Nat.cast_nonneg _))
              (by norm_num)
          exact le_min (by nlinarith) (by norm_num)
        · exact le_trans (min_le_right _ _) (by norm_num)
      · cases hmk
    · rcases List.mem_filterMap.mp h with ⟨phrase, _, hmk⟩
      split at hmk
      · rw [Option.some.injEq] at hmk
        subst hmk
        exact ⟨0.4, rfl, by norm_num, by norm_num⟩
      · cases hmk

theorem confOK_topicsV {v : Value} {ts : List Value}
    (h : extract_topics_from_textV v = .ok ts) :
    ∀ t ∈ ts, confidenceOK t := by
  rw [extract_topics_from_textV.eq_def] at h
  split at h
  · rw [Except.ok.injEq] at h
    subst h
    intro t ht; cases ht
  · cases v with
    | str s =>
        injection h with h2
        subst h2
        exact confOK_topics
    | num q => cases h
    | bool b => cases h
    | none => cases h
    | list l => cases h
    | dict xs => cases h

theorem confOK_person_email {v : Value} {p : Value}
    (h : extract_person_from_email v = .ok (Option.some p)) :
    confidenceOK p := by
  cases v with
  | str e =>
      rw [extract_person_from_email] at h
      split at h
      · injection h with h3
        injection h3
      · dsimp only [vContainsStr, ok_bind] at h
        split at h
        · injection h with h3
          injection h3
        · injection h with h3
          injection h3 with h4
          subst h4
          exact ⟨0.6, rfl, by norm_num, by norm_num⟩
  | dict xs =>
      rw [extract_person_from_email] at h
      · split at h
        · injection h with h3
          injection h3
        · dsimp only [vContainsStr, ok_bind] at h
          split at h
          · injection h with h3
            injection h3
          · cases h
      · intro s hs
        cases hs
  | list l =>
      rw [extract_person_from_email] at h
      · split at h
        · injection h with h3
          injection h3
        · dsimp only [vContainsStr, ok_bind] at h
          split at h
          · injection h with h3
            injection h3
          · cases h
      · intro s hs
        cases hs
  | num q =>
      rw [extract_person_from_email] at h
      · split at h
        · injection h with h3
          injection h3
        · dsimp only [vContainsStr, error_bind] at h
          cases h
      · intro s hs
        cases hs
  | bool b =>
      rw [extract_person_from_email] at h
      · split at h
        · injection h with h3
          injection h3
        · dsimp only [vContainsStr, error_bind] at h
          cases h
      · intro s hs
        cases hs
  | none =>
      rw [extract_person_from_email] at h
      · split at h
        · injection h with h3
          injection h3
        · dsimp only [vContainsStr, error_bind] at h
          cases h
      · intro s hs
        cases hs

theorem confOK_stakeholder {xs : List (String × Value)} {p : Value}
    (h : personFromStakeholder xs = .ok p) : confidenceOK p := by
  rw [personFromStakeholder] at h
  split at h
  · rw [Except.ok.injEq] at h
    subst h
    exact ⟨0.9, rfl, by norm_num, by norm_num⟩
  · cases h

theorem confOK_participant {v : Value} {p : Value}
    (h : personFromParticipant v = .ok p) : confidenceOK p := by
  rw [personFromParticipant.eq_def] at h
  split at h
  · injection h with h2
    subst h2
    exact ⟨0.7, rfl, by norm_num, by norm_num⟩
  · cases h

end GraphRAG

namespace GraphRAG

open Value

theorem confOK_stakeholderLoop {l ps : List Value}
    (h : stakeholderLoop l = .ok ps) : ∀ p ∈ ps, confidenceOK p := by
  induction l generalizing ps with
  | nil =>
      injection h with h2
      subst h2
      intro p hp; cases hp
  | cons s rest ih =>
      cases s with
      | dict xs =>
          rw [stakeholderLoop] at h
          rcases bind_eq_ok.mp h with ⟨p, hp, h⟩
          rcases bind_eq_ok.mp h with ⟨r, hr, h⟩
          injection h with h2
          subst h2
          intro x hx
          rcases List.mem_cons.mp hx with rfl | hx
          · exact confOK_stakeholder hp
          · exact ih hr x hx
      | str s2 => exact ih h
      | num q => exact ih h
      | bool b2 => exact ih h
      | none => exact ih h
      | list l2 => exact ih h

theorem confOK_stakeholders {v : Value} {ps : List Value}
    (h : extract_people_from_stakeholders v = .ok ps) :
    ∀ p ∈ ps, confidenceOK p := by
  rw [extract_people_from_stakeholders] at h
  rcases bind_eq_ok.mp h with ⟨items, _, h⟩
  exact confOK_stakeholderLoop h

theorem confOK_personsFromAddresses {l ps : List Value}
    (h : personsFromAddresses l = .ok ps) : ∀ p ∈ ps, confidenceOK p := by
  induction l generalizing ps with
  | nil =>
      injection h with h2
      subst h2
      intro p hp; cases hp
  | cons a rest ih =>
      rw [personsFromAddresses] at h
      split at h
      · rcases bind_eq_ok.mp h with ⟨hasAt, _, h⟩
        split at h
        · rcases bind_eq_ok.mp h with ⟨p?, hp, h⟩
          split at h
          · rcases bind_eq_ok.mp h with ⟨r, hr, h⟩
            injection h with h2
            subst h2
            intro x hx
            rcases List.mem_cons.mp hx with rfl | hx
            · exact confOK_person_email hp
            · exact ih hr x hx
          · exact ih h
        · exact ih h
      · exact ih h

theorem confOK_participantsLoop {l ps : List Value}
    (h : participantsLoop l = .ok ps) : ∀ p ∈ ps, confidenceOK p := by
  induction l generalizing ps with
  | nil =>
      injection h with h2
      subst h2
      intro p hp; cases hp
  | cons p rest ih =>
      rw [participantsLoop] at h
      rcases bind_eq_ok.mp h with ⟨x, hx, h⟩
      rcases bind_eq_ok.mp h with ⟨r, hr, h⟩
      injection h with h2
      subst h2
      intro y hy
      rcases List.mem_cons.mp hy with rfl | hy
      · exact confOK_participant hx
      · exact ih hr y hy

theorem confOK_interactionParticipantsLoop {l ps : List Value}
    (h : interactionParticipantsLoop l = .ok ps) :
    ∀ p ∈ ps, confidenceOK p := by
  induction l generalizing ps with
  | nil =>
      injection h with h2
      subst h2
      intro p hp; cases hp
  | cons a rest ih =>
      cases a with
      | str s =>
          rw [interactionParticipantsLoop] at h
          split at h
          · rcases bind_eq_ok.mp h with ⟨p?, hp, h⟩
            split at h
            · rcases bind_eq_ok.mp h with ⟨r, hr, h⟩
              injection h with h2
              subst h2
              intro x hx
              rcases List.mem_cons.mp hx with rfl | hx
              · exact confOK_person_email hp
              · exact ih hr x hx
            · exact ih h
          · exact ih h
      | dict xs => exact ih h
      | num q => exact ih h
      | bool b2 => exact ih h
      | none => exact ih h
      | list l2 => exact ih h

theorem B4OK_processMessage {xs : List (String × Value)} {b : Buckets4}
    (h : processMessage xs = .ok b) : B4OK b := by
  rw [processMessage] at h
  split at h
  rotate_left 2
  · dsimp only [error_bind] at h
    cases h
  all_goals
    (rcases bind_eq_ok.mp h with ⟨recips, _, h⟩
     rcases bind_eq_ok.mp h with ⟨ps, hps, h⟩
     rcases bind_eq_ok.mp h with ⟨summ, _, h⟩
     rcases bind_eq_ok.mp h with ⟨sent, _, h⟩
     injection h with h2
     subst h2
     refine ⟨fun e he => confOK_personsFromAddresses hps e he,
             fun e he => absurd he (List.not_mem_nil e),
             fun e he => confOK_topics e he,
             fun e he => ?_⟩
     rcases List.mem_singleton.mp he with rfl
     exact ⟨0.8, rfl, by norm_num, by norm_num⟩)

theorem B4OK_messagesLoop {l : List Value} {b : Buckets4}
    (h : messagesLoop l = .ok b) : B4OK b := by
  induction l generalizing b with
  | nil =>
      injection h with h2
      subst h2
      exact B4OK_empty
  | cons m rest ih =>
      cases m with
      | dict xs =>
          rw [messagesLoop] at h
          rcases bind_eq_ok.mp h with ⟨b1, hb1, h⟩
          rcases bind_eq_ok.mp h with ⟨r, hr, h⟩
          injection h with h2
          subst h2
          exact B4OK_merge4 (B4OK_processMessage hb1) (ih hr)
      | str s2 => exact ih h
      | num q => exact ih h
      | bool b2 => exact ih h
      | none => exact ih h
      | list l2 => exact ih h

theorem B4OK_threadsLoop {l : List Value} {b : Buckets4}
    (h : threadsLoop l = .ok b) : B4OK b := by
  induction l generalizing b with
  | nil =>
      injection h with h2
      subst h2
      exact B4OK_empty
  | cons t rest ih =>
      cases t with
      | dict xs =>
          rw [threadsLoop] at h
          rcases bind_eq_ok.mp h with ⟨msgs, _, h⟩
          rcases bind_eq_ok.mp h with ⟨b1, hb1, h⟩
          rcases bind_eq_ok.mp h with ⟨r, hr, h⟩
          injection h with h2
          subst h2
          exact B4OK_merge4 (B4OK_messagesLoop hb1) (ih hr)
      | str s2 => exact ih h
      | num q => exact ih h
      | bool b2 => exact ih h
      | none => exact ih h
      | list l2 => exact ih h

theorem B4OK_emails {v : Value} {b : Buckets4}
    (h : extract_from_emails v = .ok b) : B4OK b := by
  rw [extract_from_emails] at h
  rcases bind_eq_ok.mp h with ⟨items, _, h⟩
  exact B4OK_threadsLoop h

theorem B4OK_processCall {xs : List (String × Value)} {b : Buckets4}
    (h : processCall xs = .ok b) : B4OK b := by
  rw [processCall] at h
  rcases bind_eq_ok.mp h with ⟨pitems, _, h⟩
  rcases bind_eq_ok.mp h with ⟨ps, hps, h⟩
  rcases bind_eq_ok.mp h with ⟨titems, _, h⟩
  rcases bind_eq_ok.mp h with ⟨texts, _, h⟩
  rcases bind_eq_ok.mp h with ⟨ttext, _, h⟩
  injection h with h2
  subst h2
  refine ⟨?_, ?_, ?_, ?_⟩
  · intro e he
    exact confOK_participantsLoop hps e he
  · intro e he; cases he
  · intro e he
    exact confOK_topics e he
  · intro e he
    rcases List.mem_singleton.mp he with rfl
    exact ⟨0.8, rfl, by norm_num, by norm_num⟩

theorem B4OK_callsLoop {l : List Value} {b : Buckets4}
    (h : callsLoop l = .ok b) : B4OK b := by
  induction l generalizing b with
  | nil =>
      injection h with h2
      subst h2
      exact B4OK_empty
  | cons c rest ih =>
      cases c with
      | dict xs =>
          rw [callsLoop] at h
          rcases bind_eq_ok.mp h with ⟨b1, hb1, h⟩
          rcases bind_eq_ok.mp h with ⟨r, hr, h⟩
          injection h with h2
          subst h2
          exact B4OK_merge4 (B4OK_processCall hb1) (ih hr)
      | str s2 => exact ih h
      | num q => exact ih h
      | bool b2 => exact ih h
      | none => exact ih h
      | list l2 => exact ih h

theorem B4OK_calls {v : Value} {b : Buckets4}
    (h : extract_from_calls v = .ok b) : B4OK b := by
  rw [extract_from_calls] at h
  rcases bind_eq_ok.mp h with ⟨items, _, h⟩
  exact B4OK_callsLoop h

theorem B4OK_processInteraction {xs : List (String × Value)} {b : Buckets4}
    (h : processInteraction xs = .ok b) : B4OK b := by
  rw [processInteraction] at h
  rcases bind_eq_ok.mp h with ⟨pitems, _, h⟩
  rcases bind_eq_ok.mp h with ⟨ps, hps, h⟩
  rcases bind_eq_ok.mp h with ⟨ts, hts, h⟩
  injection h with h2
  subst h2
  refine ⟨?_, ?_, ?_, ?_⟩
  · intro e he
    exact confOK_interactionParticipantsLoop hps e he
  · intro e he; cases he
  · intro e he
    exact confOK_topicsV hts e he
  · intro e he
    rcases List.mem_singleton.mp he with rfl
    exact ⟨0.7, rfl, by norm_num, by norm_num⟩

theorem B4OK_interactionsLoop {l : List Value} {b : Buckets4}
    (h : interactionsLoop l = .ok b) : B4OK b := by
  induction l generalizing b with
  | nil =>
      injection h with h2
      subst h2
      exact B4OK_empty
  | cons i rest ih =>
      cases i with
      | dict xs =>
          rw [interactionsLoop] at h
          rcases bind_eq_ok.mp h with ⟨b1, hb1, h⟩
          rcases bind_eq_ok.mp h with ⟨r, hr, h⟩
          injection h with h2
          subst h2
          exact B4OK_merge4 (B4OK_processInteraction hb1) (ih hr)
      | str s2 => exact ih h
      | num q => exact ih h
      | bool b2 => exact ih h
      | none => exact ih h
      | list l2 => exact ih h

theorem B4OK_interactions {v : Value} {b : Buckets4}
    (h : extract_from_interactions v = .ok b) : B4OK b := by
  rw [extract_from_interactions] at h
  rcases bind_eq_ok.mp h with ⟨items, _, h⟩
  exact B4OK_interactionsLoop h

theorem B4OK_processDocument {xs : List (String × Value)} {b : Buckets4}
    (h : processDocument xs = .ok b) : B4OK b := by
  rw [processDocument] at h
  rcases bind_eq_ok.mp h with ⟨summ, _, h⟩
  injection h with h2
  subst h2
  refine ⟨?_, ?_, ?_, ?_⟩
  · intro e he; cases he
  · intro e he; cases he
  · intro e he
    exact confOK_topics e he
  · intro e he
    rcases List.mem_singleton.mp he with rfl
    exact ⟨0.6, rfl, by norm_num, by norm_num⟩

theorem B4OK_documentsLoop {l : List Value} {b : Buckets4}
    (h : documentsLoop l = .ok b) : B4OK b := by
  induction l generalizing b with
  | nil =>
      injection h with h2
      subst h2
      exact B4OK_empty
  | cons d rest ih =>
      cases d with
      | dict xs =>
          rw [documentsLoop] at h
          rcases bind_eq_ok.mp h with ⟨b1, hb1, h⟩
          rcases bind_eq_ok.mp h with ⟨r, hr, h⟩
          injection h with h2
          subst h2
          exact B4OK_merge4 (B4OK_processDocument hb1) (ih hr)
      | str s2 => exact ih h
      | num q => exact ih h
      | bool b2 => exact ih h
      | none => exact ih h
      | list l2 => exact ih h

theorem B4OK_documents {v : Value} {b : Buckets4}
    (h : extract_from_documents v = .ok b) : B4OK b := by
  rw [extract_from_documents] at h
  rcases bind_eq_ok.mp h with ⟨items, _, h⟩
  exact B4OK_documentsLoop h

end GraphRAG

namespace GraphRAG

open Value

theorem BOK_empty : BOK {} := by
  refine ⟨?_, ?_, ?_, ?_⟩ <;> intro e he <;> cases he

theorem dedupeLoop_subset {seen l r : List Value}
    (h : dedupeLoop seen l = .ok r) : ∀ e ∈ r, e ∈ l := by
  induction l generalizing seen r with
  | nil =>
      injection h with h2
      subst h2
      intro e he; cases he
  | cons x rest ih =>
      rw [dedupeLoop] at h
      cases hid : x.vGetD "id" (.str "") with
      | error msg =>
          rw [hid] at h
          cases h
      | ok id =>
          rw [hid] at h
          dsimp only at h
          cases hh : hashable id with
          | error msg =>
              rw [hh] at h
              cases h
          | ok u =>
              rw [hh] at h
              dsimp only at h
              split at h
              · intro e he
                exact List.mem_cons_of_mem x (ih h e he)
              · cases hrec : dedupeLoop (id :: seen) rest with
                | error msg =>
                    rw [hrec] at h
                    cases h
                | ok r2 =>
                    rw [hrec] at h
                    dsimp only at h
                    injection h with h2
                    subst h2
                    intro e he
                    rcases List.mem_cons.mp he with rfl | he
                    · exact List.mem_cons_self e rest
                    · exact List.mem_cons_of_mem x (ih hrec e he)

theorem BOK_dedupe {b out : Buckets} (hb : BOK b)
    (h : deduplicate_entities b = .ok out) : BOK out := by
  rw [deduplicate_entities] at h
  rcases bind_eq_ok.mp h with ⟨p, hp, h⟩
  rcases bind_eq_ok.mp h with ⟨o, ho, h⟩
  rcases bind_eq_ok.mp h with ⟨t, ht, h⟩
  rcases bind_eq_ok.mp h with ⟨e, he, h⟩
  injection h with h2
  subst h2
  obtain ⟨hb1, hb2, hb3, hb4⟩ := hb
  exact ⟨fun x hx => hb1 x (dedupeLoop_subset hp x hx),
         fun x hx => hb2 x (dedupeLoop_subset ho x hx),
         fun x hx => hb3 x (dedupeLoop_subset ht x hx),
         fun x hx => hb4 x (dedupeLoop_subset he x hx)⟩

theorem BOK_extractSources {d : Value} {b : Buckets}
    (h : extractSources d = .ok b) : BOK b := by
  rw [extractSources] at h
  rcases bind_eq_ok.mp h with ⟨b1, h1, h⟩
  rcases bind_eq_ok.mp h with ⟨b2, h2, h⟩
  rcases bind_eq_ok.mp h with ⟨b3, h3, h⟩
  rcases bind_eq_ok.mp h with ⟨b4, h4, h⟩
  rcases bind_eq_ok.mp h with ⟨b5, h5, h⟩
  injection h with heq
  subst heq
  have hB1 : BOK b1 := by
    split at h1
    · rcases bind_eq_ok.mp h1 with ⟨sv, _, h1⟩
      rcases bind_eq_ok.mp h1 with ⟨people, hp, h1⟩
      injection h1 with h1e
      subst h1e
      exact ⟨fun x hx => confOK_stakeholders hp x hx,
             fun x hx => absurd hx (List.not_mem_nil x),
             fun x hx => absurd hx (List.not_mem_nil x),
             fun x hx => absurd hx (List.not_mem_nil x)⟩
    · injection h1 with h1e
      subst h1e
      exact BOK_empty
  have hB2 : BOK b2 := by
    split at h2
    · rcases bind_eq_ok.mp h2 with ⟨ev, _, h2⟩
      rcases bind_eq_ok.mp h2 with ⟨e4, he4, h2⟩
      injection h2 with h2e
      subst h2e
      exact BOK_merge hB1 (B4OK_emails he4)
    · injection h2 with h2e
      subst h2e
      exact hB1
  have hB3 : BOK b3 := by
    split at h3
    · rcases bind_eq_ok.mp h3 with ⟨cv, _, h3⟩
      rcases bind_eq_ok.mp h3 with ⟨c4, hc4, h3⟩
      injection h3 with h3e
      subst h3e
      exact BOK_merge hB2 (B4OK_calls hc4)
    · injection h3 with h3e
      subst h3e
      exact hB2
  have hB4 : BOK b4 := by
    split at h4
    · rcases bind_eq_ok.mp h4 with ⟨iv, _, h4⟩
      rcases bind_eq_ok.mp h4 with ⟨i4, hi4, h4⟩
      injection h4 with h4e
      subst h4e
      exact BOK_merge hB3 (B4OK_interactions hi4)
    · injection h4 with h4e
      subst h4e
      exact hB3
  split at h5
  · rcases bind_eq_ok.mp h5 with ⟨dv, _, h5⟩
    rcases bind_eq_ok.mp h5 with ⟨d4, hd4, h5⟩
    injection h5 with h5e
    subst h5e
    exact BOK_merge hB4 (B4OK_documents hd4)
  · injection h5 with h5e
    subst h5e
    exact hB4

/-- C1 (amended): for every account-data input on which extraction
succeeds, every entity in the returned people, organizations, topics
and events buckets has a numeric confidence value in `[0, 1]`.  (The
non-empty-id part of the original claim is refuted: a stakeholder
record without a name yields a person entity whose id is the empty
string, see the counterexample.) -/
theorem C1_confidence_bounds (d : Value) (wr : Bool) (out : Buckets)
    (h : extract_from_account_data d wr = .ok out) :
    (∀ e ∈ out.people, confidenceOK e) ∧
    (∀ e ∈ out.organizations, confidenceOK e) ∧
    (∀ e ∈ out.topics, confidenceOK e) ∧
    (∀ e ∈ out.events, confidenceOK e) := by
  rw [extract_from_account_data] at h
  rcases bind_eq_ok.mp h with ⟨anv, _, h⟩
  rcases bind_eq_ok.mp h with ⟨b5, h5, h⟩
  cases anv with
  | str s =>
      dsimp only [ok_bind] at h
      have hb5 := BOK_extractSources h5
      have hb6 : BOK { b5 with organizations := b5.organizations ++
          [Value.dict [("id", .str (pyReplace (pyLower s) " " "_")),
            ("name", .str s), ("type", .str "primary_account"),
            ("industry", .str "technology"),
            ("confidence", .num 1.0)]] } := by
        obtain ⟨q1, q2, q3, q4⟩ := hb5
        refine ⟨q1, ?_, q3, q4⟩
        intro x hx
        rcases List.mem_append.mp hx with hx | hx
        · exact q2 x hx
        · rcases List.mem_singleton.mp hx with rfl
          exact ⟨_, rfl, by norm_num, by norm_num⟩
      split at h
      · rcases bind_eq_ok.mp h with ⟨rels, _, h⟩
        refine BOK_dedupe ?_ h
        exact hb6
      · refine BOK_dedupe ?_ h
        exact hb6
  | num q =>
      dsimp only [error_bind] at h
      cases h
  | bool b2 =>
      dsimp only [error_bind] at h
      cases h
  | none =>
      dsimp only [error_bind] at h
      cases h
  | list l2 =>
      dsimp only [error_bind] at h
      cases h
  | dict xs2 =>
      dsimp only [error_bind] at h
      cases h

/-- Witness for C1 (amended): on the empty account dictionary,
extraction returns only the primary-account organization, whose
confidence is 1.0, and the theorem applies to it. -/
theorem C1_confidence_bounds_witness :
    extract_from_account_data (Value.dict []) true =
      .ok { organizations := [Value.dict [
              ("id", .str "unknown"), ("name", .str "unknown"),
              ("type", .str "primary_account"),
              ("industry", .str "technology"),
              ("confidence", .num 1.0)]] } ∧
    confidenceOK (Value.dict [
      ("id", .str "unknown"), ("name", .str "unknown"),
      ("type", .str "primary_account"),
      ("industry", .str "technology"),
      ("confidence", .num 1.0)]) :=
  ⟨rfl, (C1_confidence_bounds (Value.dict []) true _ rfl).2.1 _
      (List.mem_singleton.mpr rfl)⟩

/-- C1 (counterexample to the claim as stated): a stakeholder record
with no name yields a person entity whose id is the empty string, so
the ids of extracted entities are not always non-empty. -/
theorem C1_counterexample :
    ∃ out, extract_from_account_data
        (Value.dict [("stakeholders", .list [.dict []])]) true = .ok out ∧
      out.people.map (fun e => e.vGetD "id" (.str "missing")) =
        [.ok (.str "")] :=
  ⟨_, rfl, rfl⟩

end GraphRAG

namespace GraphRAG

open Value

/-- A fixed semantic hit whose metadata carries a `call_id`, so the
entity-context stage produces a graph lookup. -/
def callHit : SemHit :=
  { id := "d1", score := 0.9,
    metadata := .dict [("call_id", .str "c1")], text := "t" }

/-- C8 (amended): exceptions in semantic search degrade to mock results
inside `semantic_search` and never propagate: when the Pinecone index
query raises on every request, `process_query` still succeeds, with the
top-5 mock hits as semantic results and an empty graph context.  An
exception in the graph-traversal stage (`find_related_entities`), by
contrast, propagates to the caller: `process_query`'s `try/except` logs
and re-raises, and `find_related_entities` has no handler of its own
(see the counterexample). -/
theorem C8_retrieval_degradation :
    (∀ (semResp : Nat → Except String (List SemHit))
       (graphResp : String → Except String (List GraphEntity))
       (cs : List Community) (q e : String),
        semResp = (fun _ => .error e) →
        process_query true semResp graphResp (.ok cs) q true = .ok {
          insights := generate_graphrag_insights (mock_search_results q 20) []
            (((mock_search_results q 20).take 15).map
              fun h => ({ hit := h } : HybridHit)) cs,
          entityCount := 0,
          relationshipCount := 0,
          communityCount := cs.length,
          semanticResults := (mock_search_results q 20).take 5,
          graphContext := [] }) ∧
    (∀ (graphResp : String → Except String (List GraphEntity))
       (cs : List Community) (q e : String),
        graphResp = (fun _ => .error e) →
        process_query true (fun _ => .ok [callHit])
          graphResp (.ok cs) q true = .error e) := by
  constructor
  · intro semResp graphResp cs q e hsem
    subst hsem
    rfl
  · intro graphResp cs q e hg
    subst hg
    rfl

/-- Witness for C8 (amended): a concrete always-failing Pinecone oracle
degrades to mock results, and a concrete always-failing Neo4j oracle
propagates its error. -/
theorem C8_retrieval_degradation_witness :
    (∃ res, process_query true (fun _ => .error "pinecone down")
        (fun _ => .ok []) (.ok []) "budget" true = .ok res) ∧
    process_query true (fun _ => .ok [callHit])
      (fun _ => .error "neo4j down") (.ok []) "budget" true =
      .error "neo4j down" :=
  ⟨⟨_, C8_retrieval_degradation.1 _ (fun _ => .ok []) [] "budget"
      "pinecone down" rfl⟩,
   C8_retrieval_degradation.2 _ [] "budget" "neo4j down" rfl⟩

/-- C8 (counterexample to the claim as stated): a semantic hit whose
metadata carries a `call_id` makes the graph-traversal stage call
`find_related_entities`; when that raises, `process_query` returns the
error to its caller instead of degrading to semantic-only results. -/
theorem C8_counterexample :
    process_query true (fun _ => .ok [callHit])
      (fun _ => .error "ServiceUnavailable: Neo4j")
      (.ok []) "deal risks" true = .error "ServiceUnavailable: Neo4j" := rfl

end GraphRAG

namespace GraphRAG

open Value

/-! ### Empty-name matching in the synthesizers (claim C10) -/

theorem pyLower_empty : pyLower "" = "" := rfl

theorem strIn_empty (s : String) : strIn "" s = true := by
  rw [strIn]
  cases s.toList with
  | nil => rfl
  | cons c t => rfl

theorem addUnique_subset (acc : List String) (s : String) :
    acc ⊆ addUnique acc s := by
  rw [addUnique]
  split
  · exact fun x hx => hx
  · exact List.subset_append_left _ _

theorem mem_addUnique_self (acc : List String) (s : String) :
    s ∈ addUnique acc s := by
  rw [addUnique]
  split
  · assumption
  · exact List.mem_append_right _ (List.mem_singleton_self s)

theorem collectCorrelated_ok {gc : List GraphEntity} (t : String)
    (hn : ∀ x ∈ gc, x.name.isSome) (acc : List String) :
    ∃ acc', collectCorrelated t acc gc = .ok acc' ∧ acc ⊆ acc' ∧
      ∀ x ∈ gc, x.name = Option.some "" → "" ∈ acc' := by
  induction gc generalizing acc with
  | nil =>
      exact ⟨acc, rfl, fun x hx => hx,
        fun x hx => absurd hx (List.not_mem_nil x)⟩
  | cons eh rest ih =>
      have hrest : ∀ x ∈ rest, x.name.isSome :=
        fun x hx => hn x (List.mem_cons_of_mem _ hx)
      rw [collectCorrelated]
      by_cases hm : strIn (pyLower (eh.name.getD "")) t
      · rw [if_pos hm]
        cases hname : eh.name with
        | none =>
            exact absurd (hn eh (List.mem_cons_self _ _))
              (by rw [hname]; simp)
        | some n =>
            obtain ⟨acc', hc, hsub, hall⟩ := ih hrest (addUnique acc n)
            refine ⟨acc', hc, fun x hx => hsub (addUnique_subset acc n hx), ?_⟩
            intro x hx hxname
            rcases List.mem_cons.mp hx with rfl | hx
            · have hne : n = "" := by
                rw [hname] at hxname
                exact (Option.some.inj hxname)
              subst hne
              exact hsub (mem_addUnique_self acc "")
            · exact hall x hx hxname
      · rw [if_neg hm]
        obtain ⟨acc', hc, hsub, hall⟩ := ih hrest acc
        refine ⟨acc', hc, hsub, ?_⟩
        intro x hx hxname
        rcases List.mem_cons.mp hx with rfl | hx
        · exfalso
          apply hm
          rw [hxname]
          simp [pyLower_empty, strIn_empty]
        · exact hall x hx hxname

theorem crossSourceLoop_ok {gc : List GraphEntity}
    (hn : ∀ x ∈ gc, x.name.isSome) (sems : List SemHit) (acc : List String) :
    ∃ l, crossSourceEntities.loop gc acc sems = .ok l ∧ acc ⊆ l ∧
      (sems ≠ [] → ∀ x ∈ gc, x.name = Option.some "" → "" ∈ l) := by
  induction sems generalizing acc with
  | nil =>
      exact ⟨acc, rfl, fun x hx => hx, fun hne => absurd rfl hne⟩
  | cons r rest ih =>
      obtain ⟨acc1, hc, hsub1, hall1⟩ := collectCorrelated_ok (pyLower r.text) hn acc
      obtain ⟨l, hl, hsub2, _⟩ := ih acc1
      refine ⟨l, ?_, fun x hx => hsub2 (hsub1 hx), ?_⟩
      · rw [crossSourceEntities.loop, hc]
        exact hl
      · intro _ x hx hxn
        exact hsub2 (hall1 x hx hxn)

/-- C10 (amended): a graph-context entity whose defaulted name is the
empty string (the name key absent or mapped to `''`) matches every hit
text by substring containment.  In the alignment analyzer (which only
uses defaulted `.get` access), such an entity at distance at most 2
makes every one of the first 5 hybrid hits with effective score above
0.7 count as aligned.  In cross-source correlation, an entity whose
name key is *present* and empty is added to the correlated set for
every nonempty result set; but when the name key is *absent*, the
analyzer raises `KeyError` at `entity['name']` and returns no insight
instead of adding anything (see the counterexample). -/
theorem C10_empty_name_matching :
    (∀ (hr : List HybridHit) (gc : List GraphEntity) (e : GraphEntity),
      e ∈ gc → e.name.getD "" = "" → e.distance.getD 999 ≤ 2 →
      alignedCount hr gc = ((hr.take 5).filter
        fun r => r.hybrid_score.getD r.hit.score > 0.7).length) ∧
    (∀ (sems : List SemHit) (gc : List GraphEntity) (e : GraphEntity),
      (∀ x ∈ gc, x.name.isSome) → e ∈ gc → e.name = Option.some "" →
      sems ≠ [] →
      ∃ l, crossSourceEntities sems gc = .ok l ∧ "" ∈ l) := by
  constructor
  · intro hr gc e hg hn0 hd
    rw [alignedCount]
    congr 1
    apply List.filter_congr
    intro r _
    by_cases hs : r.hybrid_score.getD r.hit.score > 0.7
    · rw [decide_eq_true hs, Bool.true_and]
      apply List.any_eq_true.mpr
      exact ⟨e, hg, by simp [hn0, pyLower_empty, strIn_empty, hd]⟩
    · rw [decide_eq_false hs, Bool.false_and]
  · intro sems gc e hn he hname hne
    obtain ⟨l, hl, _, hall⟩ := crossSourceLoop_ok hn sems []
    exact ⟨l, hl, hall hne e he hname⟩

/-- Witness for C10 (amended) at concrete inputs: an entity with the
empty-string name at distance 1. -/
theorem C10_empty_name_matching_witness :
    alignedCount [] [{ name := Option.some "", distance := Option.some 1 }] = 0 ∧
    ∃ l, crossSourceEntities
        [{ id := "h1", score := 0.8, metadata := .dict [], text := "abc" }]
        [{ name := Option.some "", distance := Option.some 1 }] = .ok l ∧
      "" ∈ l :=
  ⟨(C10_empty_name_matching.1 []
      [{ name := Option.some "", distance := Option.some 1 }]
      { name := Option.some "", distance := Option.some 1 }
      (List.mem_singleton.mpr rfl) rfl (by decide)).trans rfl,
   C10_empty_name_matching.2
      [{ id := "h1", score := 0.8, metadata := .dict [], text := "abc" }]
      [{ name := Option.some "", distance := Option.some 1 }]
      { name := Option.some "", distance := Option.some 1 }
      (fun x hx => by rcases List.mem_singleton.mp hx with rfl; rfl)
      (List.mem_singleton.mpr rfl) rfl (List.cons_ne_nil _ _)⟩

/-- C10 (counterexample to the claim as stated): when the graph-context
entity is missing its name key entirely, its defaulted name still
matches the hit text, but cross-source correlation then raises
`KeyError` at `entity['name']` and the analyzer returns no insight, so
no name is added for any result set. -/
theorem C10_counterexample :
    crossSourceEntities
      [{ id := "d1", score := 0.9, metadata := .dict [], text := "acme corp update" }]
      [{ name := Option.none, distance := Option.some 1 }] = .error "KeyError" ∧
    analyze_cross_source_correlation
      [{ id := "d1", score := 0.9, metadata := .dict [], text := "acme corp update" }]
      [{ name := Option.none, distance := Option.some 1 }] = Option.none :=
  ⟨rfl, rfl⟩

end GraphRAG

namespace GraphRAG

open Value

/-! ### Custom topics from capitalized phrases (claim C9) -/

/-- A custom topic is recognized by its `source` value
`"phrase_extraction"` (category topics carry `"text_analysis"`). -/
def isCustomTopic (v : Value) : Bool :=
  match v with
  | .dict xs =>
      match dictGet? xs "source" with
      | Option.some (.str s) => s == "phrase_extraction"
      | _ => false
  | _ => false

/-- A `[A-Z][a-z]+` word as a character list: one ASCII uppercase letter
followed by a nonempty run of ASCII lowercase letters. -/
def isCapWordChars : List Char → Bool
  | [] => false
  | c :: lo => isAsciiUpper c && !lo.isEmpty && lo.all isAsciiLower

/-- The tail of a matched phrase: a concatenation of
whitespace-run-plus-capitalized-word groups, mirroring
`(?:\s+[A-Z][a-z]+)*`. -/
inductive StarChunks : List Char → Prop where
  | nil : StarChunks []
  | cons (ws w rest : List Char) : ws ≠ [] → ws.all isPySpace = true →
      isCapWordChars w = true → StarChunks rest →
      StarChunks (ws ++ w ++ rest)

/-- Spec-side predicate for C9, following the claim's words: a
qualifying phrase has two or three whitespace-separated words, each a
capitalized word. -/
def isQualifyingPhrase (p : String) : Bool :=
  let ws := pySplitWs p
  2 ≤ ws.length && ws.length ≤ 3 &&
    ws.all fun w => isCapWordChars w.toList

theorem filter_split_helper {α : Type} (p : α → Bool) (l1 l2 : List α)
    (h1 : ∀ a ∈ l1, p a = false) (h2 : ∀ a ∈ l2, p a = true) :
    (l1 ++ l2).filter p = l2 := by
  have e1 : l1.filter p = [] :=
    List.filter_eq_nil_iff.mpr fun a ha => by simp [h1 a ha]
  rw [List.filter_append, e1, List.nil_append]
  exact List.filter_eq_self.mpr h2

theorem takeCapWord_cap {cs w r : List Char}
    (h : takeCapWord cs = Option.some (w, r)) : isCapWordChars w = true := by
  cases cs with
  | nil => cases h
  | cons c rest =>
      simp only [takeCapWord] at h
      by_cases hup : isAsciiUpper c
      · rw [if_pos hup] at h
        by_cases hlo : (rest.takeWhile isAsciiLower).isEmpty
        · rw [if_pos hlo] at h
          cases h
        · rw [if_neg hlo] at h
          rw [Option.some.injEq, Prod.mk.injEq] at h
          obtain ⟨hw, _⟩ := h
          subst hw
          have hall : (rest.takeWhile isAsciiLower).all isAsciiLower = true :=
            List.all_eq_true.mpr fun x hx => List.mem_takeWhile_imp hx
          simp [isCapWordChars, hup, hlo, hall]
      · rw [if_neg hup] at h
        cases h

theorem extendStar_shape : ∀ (fuel : Nat) (acc rest m rest' : List Char),
    extendStar acc rest fuel = Option.some (m, rest') →
    ∃ suffix, m = acc ++ suffix ∧ StarChunks suffix := by
  intro fuel
  induction fuel with
  | zero =>
      intro acc rest m rest' h
      cases h
  | succ fuel ih =>
      intro acc rest m rest' h
      simp only [extendStar] at h
      by_cases h1 : (rest.takeWhile fun c => isPySpace c).isEmpty
      · rw [if_pos h1] at h
        dsimp only at h
        split at h
        · rw [Option.some.injEq, Prod.mk.injEq] at h
          obtain ⟨hm, _⟩ := h
          exact ⟨[], by rw [List.append_nil]; exact hm.symm, StarChunks.nil⟩
        · cases h
      · rw [if_neg h1] at h
        cases htc : takeCapWord (rest.dropWhile fun c => isPySpace c) with
        | none =>
            rw [htc] at h
            dsimp only at h
            split at h
            · rw [Option.some.injEq, Prod.mk.injEq] at h
              obtain ⟨hm, _⟩ := h
              exact ⟨[], by rw [List.append_nil]; exact hm.symm, StarChunks.nil⟩
            · cases h
        | some pr =>
            obtain ⟨w, r2⟩ := pr
            rw [htc] at h
            dsimp only at h
            cases hrec : extendStar
                (acc ++ (rest.takeWhile fun c => isPySpace c) ++ w) r2 fuel with
            | some r =>
                rw [hrec] at h
                dsimp only at h
                rw [Option.some.injEq] at h
                subst h
                obtain ⟨suffix, hm, hsc⟩ := ih _ _ _ _ hrec
                refine ⟨(rest.takeWhile fun c => isPySpace c) ++ w ++ suffix,
                  ?_, ?_⟩
                · rw [hm]
                  simp [List.append_assoc]
                · exact StarChunks.cons _ _ _
                    (fun hws => h1 (by rw [hws]; rfl))
                    (List.all_eq_true.mpr fun x hx => List.mem_takeWhile_imp hx)
                    (takeCapWord_cap htc) hsc
            | none =>
                rw [hrec] at h
                dsimp only at h
                split at h
                · rw [Option.some.injEq, Prod.mk.injEq] at h
                  obtain ⟨hm, _⟩ := h
                  exact ⟨[], by rw [List.append_nil]; exact hm.symm,
                    StarChunks.nil⟩
                · cases h

theorem tryMatchPhrase_shape {pw : Bool} {cs m rest' : List Char}
    (h : tryMatchPhrase pw cs = Option.some (m, rest')) :
    ∃ w1 w2 suffix, m = w1 ++ ' ' :: (w2 ++ suffix) ∧
      isCapWordChars w1 = true ∧ isCapWordChars w2 = true ∧
      StarChunks suffix := by
  rw [tryMatchPhrase] at h
  split at h
  · cases h
  · cases htc1 : takeCapWord cs with
    | none =>
        rw [htc1] at h
        cases h
    | some pr1 =>
        obtain ⟨w1, r1⟩ := pr1
        rw [htc1] at h
        dsimp only at h
        split at h
        · rename_i r2
          cases htc2 : takeCapWord r2 with
          | none =>
              rw [htc2] at h
              cases h
          | some pr2 =>
              obtain ⟨w2, r3⟩ := pr2
              rw [htc2] at h
              dsimp only at h
              obtain ⟨suffix, hm, hsc⟩ := extendStar_shape _ _ _ _ _ h
              refine ⟨w1, w2, suffix, ?_, takeCapWord_cap htc1,
                takeCapWord_cap htc2, hsc⟩
              rw [hm]
              simp [List.append_assoc]
        · cases h

theorem scanPhrases_mem : ∀ (fuel : Nat) (pw : Bool) (cs : List Char)
    (s : String), s ∈ scanPhrases pw cs fuel →
    ∃ (pw2 : Bool) (cs2 m rest' : List Char),
      tryMatchPhrase pw2 cs2 = Option.some (m, rest') ∧ s = String.mk m := by
  intro fuel
  induction fuel with
  | zero =>
      intro pw cs s hs
      cases hs
  | succ fuel ih =>
      intro pw cs s hs
      cases cs with
      | nil => cases hs
      | cons c rest =>
          rw [scanPhrases] at hs
          cases ht : tryMatchPhrase pw (c :: rest) with
          | some pr =>
              obtain ⟨m, rest'⟩ := pr
              rw [ht] at hs
              dsimp only at hs
              rcases List.mem_cons.mp hs with rfl | hs
              · exact ⟨pw, c :: rest, m, rest', ht, rfl⟩
              · exact ih _ _ _ hs
          | none =>
              rw [ht] at hs
              dsimp only at hs
              exact ih _ _ _ hs

end GraphRAG

namespace GraphRAG

open Value

/-- C9 (amended): the topic classifier emits at most 5 custom topics;
every emitted custom topic carries importance 0.5, confidence 0.4 and
source `phrase_extraction`, and its name is one of the FIRST five regex
matches, spans at most three whitespace-separated words, and is a
phrase of two or more capitalized words (a capitalized word, a space, a
capitalized word, then whitespace-plus-capitalized-word groups).
Because the `[:5]` truncation happens before the three-word filter, a
text containing five distinct qualifying two-to-three-word phrases can
still yield fewer than 5 custom topics (see the counterexample). -/
theorem C9_custom_topics (text : String) :
    ((extract_topics_from_text text).filter isCustomTopic).length ≤ 5 ∧
    ∀ v ∈ (extract_topics_from_text text).filter isCustomTopic,
      ∃ phrase : String, phrase ∈ (findCapPhrases text).take 5 ∧
        (pySplitWs phrase).length ≤ 3 ∧
        (∃ w1 w2 suffix, phrase.toList = w1 ++ ' ' :: (w2 ++ suffix) ∧
          isCapWordChars w1 = true ∧ isCapWordChars w2 = true ∧
          StarChunks suffix) ∧
        v = Value.dict [
          ("id", .str ("custom_" ++ pyReplace (pyLower phrase) " " "_")),
          ("name", .str phrase),
          ("category", .str "custom"),
          ("importance", .num 0.5),
          ("confidence", .num 0.4),
          ("source", .str "phrase_extraction")] := by
  have hfc : (extract_topics_from_text text).filter isCustomTopic =
      ((findCapPhrases text).take 5).filterMap fun phrase =>
        if (pySplitWs phrase).length ≤ 3 then
          Option.some (Value.dict [
            ("id", .str ("custom_" ++ pyReplace (pyLower phrase) " " "_")),
            ("name", .str phrase),
            ("category", .str "custom"),
            ("importance", .num 0.5),
            ("confidence", .num 0.4),
            ("source", .str "phrase_extraction")])
        else Option.none := by
    simp only [extract_topics_from_text]
    split
    · rename_i he
      rw [(String.isEmpty_iff text).mp he]
      rfl
    · refine filter_split_helper _ _ _ ?_ ?_
      · intro a ha
        rcases List.mem_filterMap.mp ha with ⟨p, _, hmk⟩
        split at hmk
        · rw [Option.some.injEq] at hmk
          subst hmk
          rfl
        · cases hmk
      · intro a ha
        rcases List.mem_filterMap.mp ha with ⟨phrase, _, hmk⟩
        split at hmk
        · rw [Option.some.injEq] at hmk
          subst hmk
          rfl
        · cases hmk
  constructor
  · rw [hfc]
    refine le_trans (List.length_filterMap_le _ _) ?_
    rw [List.length_take]
    exact min_le_left _ _
  · intro v hv
    rw [hfc] at hv
    rcases List.mem_filterMap.mp hv with ⟨phrase, hp5, hmk⟩
    split at hmk
    · rw [Option.some.injEq] at hmk
      subst hmk
      rename_i hw3
      refine ⟨phrase, hp5, hw3, ?_, rfl⟩
      have hpm : phrase ∈ findCapPhrases text := List.take_subset 5 _ hp5
      obtain ⟨pw2, cs2, m, rest', ht, hstr⟩ :=
        scanPhrases_mem (text.length + 1) false text.toList phrase hpm
      obtain ⟨w1, w2, suffix, hm, hc1, hc2, hsc⟩ := tryMatchPhrase_shape ht
      exact ⟨w1, w2, suffix, by rw [hstr]; exact hm, hc1, hc2, hsc⟩
    · cases hmk

/-- C9 (counterexample to the claim as stated): this text contains five
distinct qualifying two-word capitalized phrases, but the first regex
match is a four-word phrase that occupies one of the five slots taken
before the word-count filter, so only 4 custom topics are emitted. -/
theorem C9_counterexample :
    ((extract_topics_from_text
        "Aaa Bbb Ccc Ddd. Ee Ff. Gg Hh. Ii Jj. Kk Ll. Mm Nn").filter
      isCustomTopic).length = 4 ∧
    (["Ee Ff", "Gg Hh", "Ii Jj", "Kk Ll", "Mm Nn"].all fun p =>
      isQualifyingPhrase p &&
        strIn p "Aaa Bbb Ccc Ddd. Ee Ff. Gg Hh. Ii Jj. Kk Ll. Mm Nn") = true ∧
    ["Ee Ff", "Gg Hh", "Ii Jj", "Kk Ll", "Mm Nn"].Nodup := by
  refine ⟨rfl, rfl, by decide⟩

end GraphRAG
